import Mathlib

/-!
Verification development for the astroplan scheduling core
(`astroplan/scheduling.py`).

Shallow embedding conventions:
* time instants and durations are rationals (`ℚ`), measured in seconds;
  the code's `1*u.second` tolerance is the literal `1`;
* targets are opaque identifiers (`ℕ`); a `Constraint` carries the flag
  `isAlt` (modelling `isinstance(c, AltitudeConstraint)`) and an opaque
  evaluation function `eval : target → time → score`, the external
  constraint-evaluator collaborator;
* Python exceptions are modelled with `Except String`; where the source
  mutates state before raising, the post-state is returned together with
  the error;
* `astropy` `Quantity`/`Time` arithmetic is plain rational arithmetic.
-/

namespace Astroplan

/-- The two block classes of the source: `ObservingBlock` and
`TransitionBlock` (used for `isinstance` dispatch). -/
inductive BlockKind where
  | obs
  | trans
deriving DecidableEq

/-- A constraint, as consumed by the core: an opaque scoring callable
`(observer, targets, times) -> scores` together with the information
whether it is an `AltitudeConstraint` instance (the only class test the
scheduling code performs on constraints).  The observer is fixed for a
run, so it is folded into `eval`. -/
structure Constraint where
  isAlt : Bool
  eval : ℕ → ℚ → ℚ

/-- A schedulable block.  One record covers both `ObservingBlock` and
`TransitionBlock`; `kind` tells the classes apart.  `components` and the
derived-total `duration` belong to transition blocks; `priority`,
`configuration`, `constraints`, `allConstraints` (`_all_constraints`),
`endIdx` (`end_idx`) and `constraintsValue` (`constraints_value`) belong
to observing blocks. -/
structure Block where
  kind : BlockKind
  target : ℕ := 0
  duration : ℚ
  priority : ℚ := 0
  configuration : List (String × String) := []
  constraints : Option (List Constraint) := none
  startTime : Option ℚ := none
  endTime : Option ℚ := none
  allConstraints : List Constraint := []
  components : List (String × ℚ) := []
  endIdx : Option ℕ := none
  constraintsValue : ℚ := 0

instance : Inhabited Block :=
  ⟨{ kind := BlockKind.obs, duration := 0 }⟩

/-- `ObservingBlock.__init__(target, duration, priority, configuration,
constraints)`: `start_time = end_time = None`. -/
def mkObservingBlock (target : ℕ) (duration priority : ℚ)
    (configuration : List (String × String))
    (constraints : Option (List Constraint)) : Block :=
  { kind := BlockKind.obs, target, duration, priority, configuration,
    constraints }

/-- `TransitionBlock.__init__(components, start_time)`: the duration is
the sum of the named components. -/
def mkTransitionBlock (components : List (String × ℚ))
    (startTime : Option ℚ) : Block :=
  { kind := BlockKind.trans, duration := (components.map (·.2)).sum,
    startTime, components }

/-- `TransitionBlock.from_duration(duration)`: a single `'duration'`
component and no start time. -/
def TransitionBlock.from_duration (d : ℚ) : Block :=
  mkTransitionBlock [("duration", d)] none

/-- A `Slot`: a timeline interval, its occupancy flags and the owned
block.  (`end` is a Lean keyword, so the field is named `stop`.) -/
structure Slot where
  start : ℚ
  stop : ℚ
  occupied : Bool := false
  middle : Bool := false
  block : Option Block := none

instance : Inhabited Slot :=
  ⟨{ start := 0, stop := 0 }⟩

/-- `Slot.duration`. -/
def Slot.duration (s : Slot) : ℚ := s.stop - s.start

/-- `Slot.split_slot(early_time, later_time)`: raises if the slot is
occupied, otherwise returns the up-to-three fragments, the middle one
flagged `middle`. -/
def Slot.split_slot (s : Slot) (early_time later_time : ℚ) :
    Except String (List Slot) :=
  if s.occupied then .error "slot is already occupied"
  else
    let new_slot : Slot :=
      { start := early_time, stop := later_time, middle := true }
    let early_slot : Slot := { start := s.start, stop := early_time }
    let late_slot : Slot := { start := later_time, stop := s.stop }
    if early_time > s.start ∧ later_time < s.stop then
      .ok [early_slot, new_slot, late_slot]
    else if early_time > s.start then
      .ok [early_slot, new_slot]
    else if later_time < s.stop then
      .ok [new_slot, late_slot]
    else
      .ok [new_slot]

/-- A `Schedule`: horizon bounds plus the ordered slot list.  A fresh
schedule holds the single full-horizon slot. -/
structure Schedule where
  startTime : ℚ
  endTime : ℚ
  slots : List Slot

/-- `Schedule.__init__(start_time, end_time)`. -/
def Schedule.init (startTime endTime : ℚ) : Schedule :=
  { startTime, endTime, slots := [{ start := startTime, stop := endTime }] }

/-- `Schedule.observing_blocks`: blocks of slots whose block is an
`ObservingBlock` instance. -/
def Schedule.observing_blocks (sch : Schedule) : List Block :=
  (sch.slots.filterMap (·.block)).filter (fun b => b.kind = BlockKind.obs)

/-- The condition of `insert_slot`'s search loop:
`(slot.start < start_time or abs(slot.start-start_time) < 1*u.second)
and (slot.end > start_time + 1*u.second)`. -/
def slotMatches (s : Slot) (start_time : ℚ) : Bool :=
  (s.start < start_time ∨ |s.start - start_time| < 1) ∧
    s.stop > start_time + 1

/-- The search loop of `insert_slot` keeps reassigning `slot_index`, so
the *last* matching index wins; no match at all leaves `slot_index`
unbound (a `NameError`, modelled as `none`). -/
def findSlotIndexAux (start_time : ℚ) :
    List Slot → ℕ → Option ℕ → Option ℕ
  | [], _, acc => acc
  | s :: rest, j, acc =>
      findSlotIndexAux start_time rest (j + 1)
        (if slotMatches s start_time then some j else acc)

/-- Index of the slot `insert_slot` will split, per the source's scan. -/
def findSlotIndex (sch : Schedule) (start_time : ℚ) : Option ℕ :=
  findSlotIndexAux start_time sch.slots 0 none

/-- The `elif` at the top of `insert_slot`:
`elif self.slots[slot_index].end - block.duration < start_time:
start_time = self.slots[slot_index].end - block.duration`. -/
def snap_start (slot : Slot) (blk : Block) (start_time : ℚ) : ℚ :=
  if slot.stop - blk.duration < start_time then slot.stop - blk.duration
  else start_time

/-- The snap chain of `insert_slot` computing the final
`(block.duration, start_time, end_time)` triple.  The source's first
test reads `abs((slot.duration - block.duration) < 1*u.second)`: the
`abs` is applied to the *boolean*, so the test is the one-sided
comparison `slot.duration - block.duration < 1*u.second`, which is
translated as written. -/
def snap_bounds (slot : Slot) (blk : Block) (start_time : ℚ) :
    ℚ × ℚ × ℚ :=
  let t1 := snap_start slot blk start_time
  if slot.duration - blk.duration < 1 then
    (slot.duration, slot.start, slot.stop)
  else if |slot.start - t1| < 1 then
    (blk.duration, slot.start, slot.start + blk.duration)
  else if |slot.stop - t1 - blk.duration| < 1 then
    (blk.duration, t1, slot.stop)
  else
    (blk.duration, t1, t1 + blk.duration)

/-- The marking loop at the end of `insert_slot`: the middle fragment
becomes occupied by the block. -/
def markMiddle (blk2 : Block) (new_slots : List Slot) : List Slot :=
  new_slots.map fun s =>
    if s.middle then { s with occupied := true, block := some blk2 }
    else s

/-- The block-attribute mutations of `insert_slot`:
`block.duration`/`block.start_time` take the snapped values, and for an
`ObservingBlock` also `block.end_time = start_time + block.duration`. -/
def snappedBlock (blk : Block) (dse : ℚ × ℚ × ℚ) : Block :=
  { blk with
    duration := dse.1
    startTime := some dse.2.1
    endTime :=
      if blk.kind = BlockKind.obs then some (dse.2.1 + dse.1)
      else blk.endTime }

/-- `Schedule.insert_slot(start_time, block)`.  Faithful translation:

* locate the slot (last match of the scan; `NameError` if none);
* `if (block.duration - slot.duration) > 1*u.second: raise ValueError`;
* `elif slot.end - block.duration < start_time: start_time = slot.end -
  block.duration`;
* the snap chain.  Note the source's first test reads
  `abs((slot.duration - block.duration) < 1*u.second)`: the `abs` is
  applied to the *boolean*, so the test is the one-sided comparison
  `slot.duration - block.duration < 1*u.second`, which we translate
  as written;
* `block.end_time = start_time + block.duration` for observing blocks,
  `block.start_time = start_time` for all blocks (with `duration`
  possibly widened to the whole slot by the first snap branch);
* split the slot and mark the middle fragment occupied by the block. -/
def Schedule.insert_slot (sch : Schedule) (start_time : ℚ) (blk : Block) :
    Except String Schedule :=
  match findSlotIndex sch start_time with
  | none => .error "NameError: slot_index"
  | some j =>
    match sch.slots[j]? with
    | none => .error "IndexError: slot_index"
    | some slot =>
      if blk.duration - slot.duration > 1 then
        .error "longer block than slot"
      else
        let dse := snap_bounds slot blk start_time
        let blk2 := snappedBlock blk dse
        match slot.split_slot dse.2.1 dse.2.2 with
        | .error e => .error e
        | .ok new_slots =>
          .ok { sch with
                slots := sch.slots.take j ++ markMiddle blk2 new_slots
                  ++ sch.slots.drop (j + 1) }

/-- The in-place slot mutation of `change_slot_block`: new end computed
from the new block's duration, block reassigned. -/
def resizedSlot (s : Slot) (new_block : Block) : Slot :=
  { s with stop := s.start + new_block.duration, block := some new_block }

/-- The follower mutation of `change_slot_block`: its start is pushed
forward to the resized slot's new end. -/
def pushedSlot (s1 : Slot) (new_end : ℚ) : Slot :=
  { s1 with start := new_end }

/-- `Schedule.change_slot_block(slot_index, new_block)`.  The source
mutates `slots[slot_index]` (new end, new block) *before* testing
whether `slots[slot_index + 1]` is free, so on error the mutated state
is returned alongside the error; success also pushes the following
slot's start forward.  (The source would accept Python's negative
indices; indices here are naturals, which covers the in-range uses.) -/
def Schedule.change_slot_block (sch : Schedule) (slot_index : ℕ)
    (new_block : Block) : Schedule × Option String :=
  match sch.slots[slot_index]? with
  | none => (sch, some "IndexError: list index out of range")
  | some s =>
    let new_end := s.start + new_block.duration
    let slots1 := sch.slots.set slot_index (resizedSlot s new_block)
    match slots1[slot_index + 1]? with
    | none => ({ sch with slots := slots1 },
               some "IndexError: list index out of range")
    | some s1 =>
      if s1.block.isSome then
        ({ sch with slots := slots1 }, some "slot afterwards is full")
      else
        ({ sch with
           slots := slots1.set (slot_index + 1) (pushedSlot s1 new_end) },
         none)

/-! ### The partition invariant (claim C1)

`tiling a l b` says the slot list `l` is a contiguous, ordered partition
of the interval from `a` to `b`: each slot starts where its predecessor
stopped, the first starts at `a` and the last stops at `b`. -/

/-- Contiguity of a slot list between two horizon bounds. -/
def tiling (a : ℚ) : List Slot → ℚ → Bool
  | [], b => decide (a = b)
  | s :: rest, b => decide (s.start = a) && tiling s.stop rest b

/-- The occupancy relation: at least one of two adjacent slots is
occupied. -/
def occRel (x y : Slot) : Prop := x.occupied = true ∨ y.occupied = true

instance : DecidableRel occRel := fun x y =>
  inferInstanceAs (Decidable (x.occupied = true ∨ y.occupied = true))

/-- No two consecutive slots are both unoccupied. -/
def noTwoOpen (l : List Slot) : Prop := List.Chain' occRel l

instance : DecidablePred noTwoOpen := fun l =>
  inferInstanceAs (Decidable (List.Chain' _ l))

/-- The Schedule invariant claimed by the spec: a nonempty, gap-free
ordered partition of the horizon with no two adjacent open slots. -/
def Schedule.invariantHolds (sch : Schedule) : Prop :=
  sch.slots ≠ [] ∧ tiling sch.startTime sch.slots sch.endTime = true ∧
    noTwoOpen sch.slots

instance : DecidablePred Schedule.invariantHolds := fun sch =>
  decidable_of_iff
    (sch.slots.isEmpty = false ∧
      tiling sch.startTime sch.slots sch.endTime = true ∧ noTwoOpen sch.slots)
    (by
      unfold Schedule.invariantHolds
      cases sch.slots <;> simp [List.isEmpty])

/-- A schedule-mutating operation: `insert_slot` or `change_slot_block`. -/
inductive SlotOp where
  | ins (start_time : ℚ) (blk : Block)
  | chg (slot_index : ℕ) (blk : Block)

/-- Run one operation; `none` when the source would raise. -/
def applySlotOp (sch : Schedule) : SlotOp → Option Schedule
  | .ins t b => (sch.insert_slot t b).toOption
  | .chg i b =>
      let r := sch.change_slot_block i b
      if r.2.isNone then some r.1 else none

/-- Run a sequence of operations, failing if any raises. -/
def applySlotOps (sch : Schedule) : List SlotOp → Option Schedule
  | [] => some sch
  | op :: ops => (applySlotOp sch op).bind fun sch2 => applySlotOps sch2 ops

/-! ### Tiling and occupancy-chain lemmas -/

theorem tiling_append {a m b : ℚ} {xs ys : List Slot}
    (hx : tiling a xs m = true) (hy : tiling m ys b = true) :
    tiling a (xs ++ ys) b = true := by
  induction xs generalizing a with
  | nil =>
    simp only [tiling, decide_eq_true_eq] at hx
    simpa [hx] using hy
  | cons s rest ih =>
    simp only [tiling, Bool.and_eq_true, decide_eq_true_eq] at hx ⊢
    exact ⟨hx.1, ih hx.2⟩

theorem tiling_append_iff {a b : ℚ} {xs ys : List Slot} :
    tiling a (xs ++ ys) b = true ↔
      ∃ m, tiling a xs m = true ∧ tiling m ys b = true := by
  induction xs generalizing a with
  | nil =>
    simp only [List.nil_append, tiling, decide_eq_true_eq]
    constructor
    · exact fun h => ⟨a, rfl, h⟩
    · rintro ⟨m, rfl, h⟩; exact h
  | cons s rest ih =>
    constructor
    · intro h
      simp only [List.cons_append, tiling, Bool.and_eq_true,
        decide_eq_true_eq] at h
      rcases ih.mp h.2 with ⟨m, h2, h3⟩
      refine ⟨m, ?_, h3⟩
      simp only [tiling, Bool.and_eq_true, decide_eq_true_eq]
      exact ⟨h.1, h2⟩
    · rintro ⟨m, h12, h3⟩
      simp only [tiling, Bool.and_eq_true, decide_eq_true_eq] at h12
      simp only [List.cons_append, tiling, Bool.and_eq_true, decide_eq_true_eq]
      exact ⟨h12.1, ih.mpr ⟨m, h12.2, h3⟩⟩

theorem tiling_head_start {a b : ℚ} {s : Slot} {l : List Slot}
    (h : tiling a (s :: l) b = true) : s.start = a := by
  simp only [tiling, Bool.and_eq_true, decide_eq_true_eq] at h
  exact h.1

theorem tiling_head? {a b : ℚ} {l : List Slot} (h : tiling a l b = true)
    (hne : l ≠ []) : l.head?.map Slot.start = some a := by
  cases l with
  | nil => exact absurd rfl hne
  | cons s rest => simp [tiling_head_start h]

theorem tiling_getLast? {a b : ℚ} {l : List Slot} (h : tiling a l b = true)
    (hne : l ≠ []) : l.getLast?.map Slot.stop = some b := by
  induction l generalizing a with
  | nil => exact absurd rfl hne
  | cons s rest ih =>
    simp only [tiling, Bool.and_eq_true, decide_eq_true_eq] at h
    cases rest with
    | nil =>
      simp only [tiling, decide_eq_true_eq] at h
      simp [h.2]
    | cons t rest2 => simpa [List.getLast?] using ih h.2 (by simp)

/-- The endpoint of a tiling is determined by its start and slot list. -/
theorem tiling_end_unique {a m m' : ℚ} {xs : List Slot}
    (h : tiling a xs m = true) (h' : tiling a xs m' = true) : m = m' := by
  induction xs generalizing a with
  | nil =>
    simp only [tiling, decide_eq_true_eq] at h h'
    exact h.symm.trans h'
  | cons s rest ih =>
    simp only [tiling, Bool.and_eq_true, decide_eq_true_eq] at h h'
    exact ih h.2 h'.2

/-- Replacing a contiguous segment of a tiling by another list tiling
the same subinterval preserves the tiling. -/
theorem tiling_surgery {a b m1 m2 : ℚ} {xs ms ns ys : List Slot}
    (hpre : tiling a (xs ++ (ms ++ ys)) b = true)
    (hxs : tiling a xs m1 = true)
    (hms : tiling m1 ms m2 = true)
    (hns : tiling m1 ns m2 = true) :
    tiling a (xs ++ (ns ++ ys)) b = true := by
  rcases tiling_append_iff.mp hpre with ⟨p1, hp1, hrest⟩
  rcases tiling_append_iff.mp hrest with ⟨p2, hp2, hp3⟩
  have e1 : p1 = m1 := tiling_end_unique hp1 hxs
  subst e1
  have e2 : p2 = m2 := tiling_end_unique hp2 hms
  subst e2
  exact tiling_append hxs (tiling_append hns hp3)

theorem tiling_start_unique {p1 m1 p2 m2 : ℚ} {ms : List Slot}
    (hne : ms ≠ []) (h : tiling p1 ms p2 = true)
    (h' : tiling m1 ms m2 = true) : p1 = m1 := by
  cases ms with
  | nil => exact absurd rfl hne
  | cons s rest => rw [← tiling_head_start h, ← tiling_head_start h']

theorem head?_append_left {α : Type} {l₁ l₂ : List α} (h : l₁ ≠ []) :
    (l₁ ++ l₂).head? = l₁.head? := by
  cases l₁ with
  | nil => exact absurd rfl h
  | cons a t => simp

/-- Replacing the nonempty segment `ms` of a schedule's slot list by a
nonempty list `ns` that tiles the same subinterval, keeps the
occupancy chain and whose first/last elements are occupied whenever
`ms`'s were, preserves the schedule invariant. -/
theorem invariant_surgery {sch : Schedule} {xs ms ns ys : List Slot}
    {m1 m2 : ℚ}
    (hslots : sch.slots = xs ++ (ms ++ ys))
    (hinv : sch.invariantHolds)
    (hmsne : ms ≠ []) (hnsne : ns ≠ [])
    (hms : tiling m1 ms m2 = true)
    (hns : tiling m1 ns m2 = true)
    (hchain : List.Chain' occRel ns)
    (hhead : ∀ x ∈ ns.head?, ∀ y ∈ ms.head?,
      y.occupied = true → x.occupied = true)
    (hlast : ∀ x ∈ ns.getLast?, ∀ y ∈ ms.getLast?,
      y.occupied = true → x.occupied = true) :
    Schedule.invariantHolds { sch with slots := xs ++ (ns ++ ys) } := by
  obtain ⟨hne0, htile0, hocc0⟩ := hinv
  rw [hslots] at htile0 hocc0
  refine ⟨?_, ?_, ?_⟩
  · intro h
    rcases List.append_eq_nil.mp h with ⟨-, h2⟩
    exact hnsne (List.append_eq_nil.mp h2).1
  · rcases tiling_append_iff.mp htile0 with ⟨p1, hp1, hrest⟩
    rcases tiling_append_iff.mp hrest with ⟨p2, hp2, hp3⟩
    have e1 : p1 = m1 := tiling_start_unique hmsne hp2 hms
    subst e1
    have e2 : p2 = m2 := tiling_end_unique hp2 hms
    subst e2
    exact tiling_append hp1 (tiling_append hns hp3)
  · unfold noTwoOpen at hocc0 ⊢
    rw [List.chain'_append] at hocc0 ⊢
    obtain ⟨hcx, hcmy, hjx⟩ := hocc0
    rw [List.chain'_append] at hcmy ⊢
    obtain ⟨hcm, hcy, hjm⟩ := hcmy
    refine ⟨hcx, ⟨hchain, hcy, ?_⟩, ?_⟩
    · -- junction between ns and ys
      intro x hx y hy
      have hms_last : ∃ z, ms.getLast? = some z := by
        cases ms with
        | nil => exact absurd rfl hmsne
        | cons a t => exact ⟨_, rfl⟩
      rcases hms_last with ⟨z, hz⟩
      rcases hjm z hz y hy with hzo | hyo
      · exact Or.inl (hlast x hx z hz hzo)
      · exact Or.inr hyo
    · -- junction between xs and ns ++ ys
      intro p hp x hx
      rw [head?_append_left hnsne] at hx
      have hms_head : ∃ z, ms.head? = some z := by
        cases ms with
        | nil => exact absurd rfl hmsne
        | cons a t => exact ⟨_, rfl⟩
      rcases hms_head with ⟨z, hz⟩
      have hz' : (ms ++ ys).head? = some z := by
        rw [head?_append_left hmsne]; exact hz
      rcases hjx p hp z hz' with hpo | hzo
      · exact Or.inl hpo
      · exact Or.inr (hhead x hx z hz hzo)

/-! ### Properties of `insert_slot`'s slot search and snapping -/

theorem findSlotIndexAux_spec {t : ℚ} :
    ∀ (l : List Slot) (k : ℕ) (acc : Option ℕ) (j : ℕ),
      findSlotIndexAux t l k acc = some j →
      (∃ i, ∃ h : i < l.length, j = k + i ∧ slotMatches l[i] t = true) ∨
        acc = some j := by
  intro l
  induction l with
  | nil => intro k acc j h; exact Or.inr h
  | cons s rest ih =>
    intro k acc j h
    rw [findSlotIndexAux] at h
    rcases ih (k + 1) _ j h with ⟨i, hi, rfl, hm⟩ | hacc
    · exact Or.inl ⟨i + 1, by simpa using hi, by omega, by simpa using hm⟩
    · by_cases hs : slotMatches s t
      · rw [if_pos hs] at hacc
        injection hacc with hkj
        exact Or.inl ⟨0, by simp, by omega, by simpa using hs⟩
      · rw [if_neg hs] at hacc
        exact Or.inr hacc

theorem findSlotIndex_spec {sch : Schedule} {t : ℚ} {j : ℕ}
    (h : findSlotIndex sch t = some j) :
    ∃ hj : j < sch.slots.length, slotMatches sch.slots[j] t = true := by
  rcases findSlotIndexAux_spec sch.slots 0 none j h with ⟨i, hi, hji, hm⟩ | hacc
  · subst hji; exact ⟨by simpa using hi, by simpa using hm⟩
  · exact absurd hacc (by simp)

/-- Bounds of the snapped placement interval: it stays inside the
located slot whenever the duration check passed and the search
condition held. -/
theorem snap_bounds_le {slot : Slot} {blk : Block} {t : ℚ}
    (hmatch : slotMatches slot t = true) :
    slot.start ≤ (snap_bounds slot blk t).2.1 ∧
      (snap_bounds slot blk t).2.2 ≤ slot.stop := by
  have hmatch' : (slot.start < t ∨ |slot.start - t| < 1) ∧
      slot.stop > t + 1 := by
    simpa [slotMatches] using hmatch
  obtain ⟨hm1, hm2⟩ := hmatch'
  have ht1 : snap_start slot blk t = slot.stop - blk.duration ∨
      (snap_start slot blk t = t ∧ t ≤ slot.stop - blk.duration) := by
    rw [snap_start]
    split
    · exact Or.inl rfl
    · rename_i hc; push_neg at hc; exact Or.inr ⟨rfl, hc⟩
  rw [snap_bounds]
  set t1 := snap_start slot blk t with ht1def
  simp only [Slot.duration]
  split
  · exact ⟨le_refl _, le_refl _⟩
  · rename_i h1
    push_neg at h1
    split
    · exact ⟨le_refl _, by dsimp only; linarith⟩
    · rename_i h2
      have hstart : slot.start ≤ t1 := by
        rcases ht1 with he | ⟨he, hle⟩
        · rw [he]; linarith
        · rw [he]
          rw [he] at h2
          rcases hm1 with hlt | habs
          · linarith
          · exact absurd habs h2
      split
      · exact ⟨hstart, le_refl _⟩
      · refine ⟨hstart, ?_⟩
        dsimp only
        rcases ht1 with he | ⟨he, hle⟩
        · rw [he]; linarith
        · rw [he]; linarith

/-- Properties of the split fragments after the middle is marked:
when the placement interval lies inside the slot, the marked fragments
tile the slot, their occupancy chain holds, and the slot was free. -/
theorem split_slot_marked_props {slot : Slot} {st en : ℚ} {blk2 : Block}
    {ns : List Slot}
    (hok : slot.split_slot st en = .ok ns)
    (h1 : slot.start ≤ st) (h2 : en ≤ slot.stop) :
    slot.occupied = false ∧ markMiddle blk2 ns ≠ [] ∧
      tiling slot.start (markMiddle blk2 ns) slot.stop = true ∧
      List.Chain' occRel (markMiddle blk2 ns) := by
  unfold Slot.split_slot at hok
  split at hok
  · exact Except.noConfusion hok
  rename_i hocc
  rw [Bool.not_eq_true] at hocc
  refine ⟨hocc, ?_⟩
  split at hok
  · rename_i hcase
    injection hok with hns
    subst hns
    refine ⟨by simp [markMiddle], ?_, ?_⟩
    · simp [markMiddle, tiling]
    · simp [markMiddle, occRel, List.chain'_cons]
  · split at hok
    · rename_i hcase1 hcase2
      injection hok with hns
      subst hns
      have hen : en = slot.stop := by
        rcases not_and_or.mp hcase1 with hc | hc
        · exact absurd hcase2 hc
        · exact le_antisymm h2 (not_lt.mp hc)
      refine ⟨by simp [markMiddle], ?_, ?_⟩
      · simp [markMiddle, tiling, hen]
      · simp [markMiddle, occRel, List.chain'_cons]
    · split at hok
      · rename_i hcase1 hcase2 hcase3
        injection hok with hns
        subst hns
        have hst : st = slot.start := le_antisymm (not_lt.mp hcase2) h1
        refine ⟨by simp [markMiddle], ?_, ?_⟩
        · simp [markMiddle, tiling, hst]
        · simp [markMiddle, occRel, List.chain'_cons]
      · rename_i hcase1 hcase2 hcase3
        injection hok with hns
        subst hns
        have hst : st = slot.start := le_antisymm (not_lt.mp hcase2) h1
        have hen : en = slot.stop := le_antisymm h2 (not_lt.mp hcase3)
        refine ⟨by simp [markMiddle], ?_, ?_⟩
        · simp [markMiddle, tiling, hst, hen]
        · simp [markMiddle, occRel, List.chain'_cons]

/-- A successful `insert_slot` preserves the partition invariant. -/
theorem insert_slot_invariant {sch sch' : Schedule} {t : ℚ} {blk : Block}
    (hinv : sch.invariantHolds) (h : sch.insert_slot t blk = .ok sch') :
    sch'.invariantHolds := by
  unfold Schedule.insert_slot at h
  cases hfind : findSlotIndex sch t with
  | none => rw [hfind] at h; exact Except.noConfusion h
  | some j =>
    rw [hfind] at h
    dsimp only at h
    obtain ⟨hj, hmatch⟩ := findSlotIndex_spec hfind
    rw [List.getElem?_eq_getElem hj] at h
    dsimp only at h
    split at h
    · exact Except.noConfusion h
    rename_i hd
    cases hsplit : (sch.slots[j]).split_slot
        (snap_bounds sch.slots[j] blk t).2.1
        (snap_bounds sch.slots[j] blk t).2.2 with
    | error e => rw [hsplit] at h; exact Except.noConfusion h
    | ok nsl =>
      rw [hsplit] at h
      injection h with hsch
      subst hsch
      obtain ⟨hb1, hb2⟩ := @snap_bounds_le _ blk _ hmatch
      obtain ⟨hocc, hne, htile, hchain⟩ :=
        @split_slot_marked_props _ _ _
          { blk with
            duration := (snap_bounds sch.slots[j] blk t).1
            startTime := some (snap_bounds sch.slots[j] blk t).2.1
            endTime :=
              if blk.kind = BlockKind.obs then
                some ((snap_bounds sch.slots[j] blk t).2.1 +
                  (snap_bounds sch.slots[j] blk t).1)
              else blk.endTime } _ hsplit hb1 hb2
      have hdecomp : sch.slots =
          sch.slots.take j ++ ([sch.slots[j]] ++ sch.slots.drop (j + 1)) := by
        conv_lhs => rw [← List.take_append_drop j sch.slots,
          List.drop_eq_getElem_cons hj]
        simp
      have := invariant_surgery hdecomp hinv
        (by simp) hne (by simp [tiling]) htile hchain
        (fun x hx y hy hyo => by
          simp only [List.head?_cons, Option.mem_def, Option.some.injEq] at hy
          rw [← hy] at hyo
          rw [hocc] at hyo
          exact Bool.noConfusion hyo)
        (fun x hx y hy hyo => by
          simp only [List.getLast?_singleton, Option.mem_def,
            Option.some.injEq] at hy
          rw [← hy] at hyo
          rw [hocc] at hyo
          exact Bool.noConfusion hyo)
      simpa [List.append_assoc] using this

theorem set_after_prefix {α : Type} (l1 : List α) (x y : α) (l2 : List α) :
    (l1 ++ x :: l2).set l1.length y = l1 ++ y :: l2 := by
  induction l1 with
  | nil => simp
  | cons a t ih => simp [ih]

/-- A successful `change_slot_block` preserves the partition
invariant. -/
theorem change_slot_block_invariant {sch sch' : Schedule} {i : ℕ}
    {nb : Block} (hinv : sch.invariantHolds)
    (h : sch.change_slot_block i nb = (sch', none)) : sch'.invariantHolds := by
  unfold Schedule.change_slot_block at h
  cases hi : sch.slots[i]? with
  | none => rw [hi] at h; simp at h
  | some s =>
    rw [hi] at h
    dsimp only at h
    cases hi1 : (sch.slots.set i (resizedSlot s nb))[i+1]? with
    | none => rw [hi1] at h; simp at h
    | some s1 =>
      rw [hi1] at h
      dsimp only at h
      split at h
      · simp at h
      rename_i hblock
      injection h with h1 h2
      subst h1
      set a2 : Slot := resizedSlot s nb with ha2
      set b2 : Slot := pushedSlot s1 (s.start + nb.duration) with hb2
      have hilt : i < sch.slots.length := by
        have := List.getElem?_eq_some_iff.mp hi
        exact this.1
      have hi1lt : i + 1 < sch.slots.length := by
        have := List.getElem?_eq_some_iff.mp hi1
        simpa using this.1
      have hsv : sch.slots[i] = s := by
        have := List.getElem?_eq_some_iff.mp hi
        rcases this with ⟨h', e⟩
        simpa [List.getElem?_eq_getElem h'] using hi
      have hs1v : sch.slots[i+1] = s1 := by
        have h' := hi1
        rw [List.getElem?_set_ne (by omega)] at h'
        simpa [List.getElem?_eq_getElem hi1lt] using h'
      -- decompose the original slot list around positions i and i+1
      have hdecomp : sch.slots =
          sch.slots.take i ++ ([s, s1] ++ sch.slots.drop (i + 2)) := by
        conv_lhs => rw [← List.take_append_drop i sch.slots,
          List.drop_eq_getElem_cons hilt,
          List.drop_eq_getElem_cons (by omega : i + 1 < sch.slots.length)]
        simp [hsv, hs1v]
      -- compute the mutated slot list
      have hlentake : (sch.slots.take i).length = i :=
        List.length_take_of_le (le_of_lt hilt)
      have e1 := set_after_prefix (sch.slots.take i) s a2
        (s1 :: sch.slots.drop (i + 2))
      rw [hlentake] at e1
      have e2 := set_after_prefix (sch.slots.take i ++ [a2]) s1 b2
        (sch.slots.drop (i + 2))
      have hlen2 : (sch.slots.take i ++ [a2]).length = i + 1 := by
        simp [hlentake]
      rw [hlen2] at e2
      have hpost : (sch.slots.set i a2).set (i + 1) b2 =
          sch.slots.take i ++ ([a2, b2] ++ sch.slots.drop (i + 2)) := by
        conv_lhs => rw [hdecomp]
        rw [show sch.slots.take i ++ ([s, s1] ++ sch.slots.drop (i + 2)) =
          sch.slots.take i ++ (s :: s1 :: sch.slots.drop (i + 2)) from by simp]
        rw [e1]
        rw [show sch.slots.take i ++ (a2 :: s1 :: sch.slots.drop (i + 2)) =
            (sch.slots.take i ++ [a2]) ++ s1 :: sch.slots.drop (i + 2)
          from by simp]
        rw [e2]
        simp
      -- extract the tiling of the two replaced slots
      have htile0 := hinv.2.1
      rw [hdecomp] at htile0
      rcases tiling_append_iff.mp htile0 with ⟨p1, hp1, hrest⟩
      rcases tiling_append_iff.mp hrest with ⟨p2, hp2, hp3⟩
      have hms : tiling p1 [s, s1] p2 = true := hp2
      have hmsu := hms
      simp only [tiling, Bool.and_eq_true, decide_eq_true_eq] at hmsu
      -- occupancy of the two replaced slots
      have hocc0 := hinv.2.2
      rw [hdecomp] at hocc0
      unfold noTwoOpen at hocc0
      rw [List.chain'_append] at hocc0
      have hpair : occRel s s1 := by
        have := hocc0.2.1
        rw [List.chain'_append] at this
        have h2 := this.1
        exact (List.chain'_cons.mp h2).1
      rw [hpost]
      refine invariant_surgery hdecomp hinv (by simp) (by simp)
        hms ?_ ?_ ?_ ?_
      · simp only [tiling, Bool.and_eq_true, decide_eq_true_eq]
        exact ⟨hmsu.1, rfl, hmsu.2.2⟩
      · refine List.chain'_cons.mpr ⟨?_, by simp⟩
        exact hpair
      · intro x hx y hy
        simp only [List.head?_cons, Option.mem_def, Option.some.injEq] at hx hy
        subst hx
        subst hy
        exact fun hyo => hyo
      · intro x hx y hy
        simp only [List.getLast?_cons_cons, List.getLast?_singleton,
          Option.mem_def, Option.some.injEq] at hx hy
        subst hx
        subst hy
        exact fun hyo => hyo

theorem tiling_chain' {a b : ℚ} {l : List Slot} (h : tiling a l b = true) :
    List.Chain' (fun x y : Slot => x.stop = y.start) l := by
  induction l generalizing a with
  | nil => simp
  | cons s rest ih =>
    simp only [tiling, Bool.and_eq_true, decide_eq_true_eq] at h
    refine List.chain'_cons'.mpr ⟨?_, ih h.2⟩
    intro y hy
    cases rest with
    | nil => simp at hy
    | cons u r2 =>
      simp only [List.head?_cons, Option.mem_def, Option.some.injEq] at hy
      subst hy
      exact (tiling_head_start h.2).symm

theorem insert_slot_hor_eq {sch sch' : Schedule} {t : ℚ} {blk : Block}
    (h : sch.insert_slot t blk = .ok sch') :
    sch'.startTime = sch.startTime ∧ sch'.endTime = sch.endTime := by
  unfold Schedule.insert_slot at h
  cases hfind : findSlotIndex sch t with
  | none => rw [hfind] at h; exact Except.noConfusion h
  | some j =>
    rw [hfind] at h
    dsimp only at h
    cases hj : sch.slots[j]? with
    | none => rw [hj] at h; exact Except.noConfusion h
    | some slot =>
      rw [hj] at h
      dsimp only at h
      split at h
      · exact Except.noConfusion h
      cases hsplit : slot.split_slot (snap_bounds slot blk t).2.1
          (snap_bounds slot blk t).2.2 with
      | error e => rw [hsplit] at h; exact Except.noConfusion h
      | ok nsl =>
        rw [hsplit] at h
        injection h with h'
        subst h'
        exact ⟨rfl, rfl⟩

theorem change_slot_block_hor_eq {sch : Schedule} {i : ℕ} {nb : Block} :
    (sch.change_slot_block i nb).1.startTime = sch.startTime ∧
      (sch.change_slot_block i nb).1.endTime = sch.endTime := by
  unfold Schedule.change_slot_block
  cases sch.slots[i]? with
  | none => exact ⟨rfl, rfl⟩
  | some s =>
    dsimp only
    cases (sch.slots.set i (resizedSlot s nb))[i+1]? with
    | none => exact ⟨rfl, rfl⟩
    | some s1 =>
      dsimp only
      split <;> exact ⟨rfl, rfl⟩

theorem applySlotOp_invariant {sch sch' : Schedule} {op : SlotOp}
    (hinv : sch.invariantHolds) (h : applySlotOp sch op = some sch') :
    sch'.invariantHolds ∧ sch'.startTime = sch.startTime ∧
      sch'.endTime = sch.endTime := by
  cases op with
  | ins t b =>
    simp only [applySlotOp] at h
    cases hins : sch.insert_slot t b with
    | error e => rw [hins] at h; exact Option.noConfusion h
    | ok sch2 =>
      rw [hins] at h
      injection h with h'
      subst h'
      exact ⟨insert_slot_invariant hinv hins, insert_slot_hor_eq hins⟩
  | chg i b =>
    simp only [applySlotOp] at h
    split at h
    · rename_i hnone
      injection h with h'
      subst h'
      have hres : sch.change_slot_block i b =
          ((sch.change_slot_block i b).1, none) := by
        rw [Option.isNone_iff_eq_none] at hnone
        exact Prod.ext rfl hnone
      exact ⟨change_slot_block_invariant hinv hres, change_slot_block_hor_eq⟩
    · exact Option.noConfusion h

theorem applySlotOps_invariant {sch sch' : Schedule} {ops : List SlotOp}
    (hinv : sch.invariantHolds) (h : applySlotOps sch ops = some sch') :
    sch'.invariantHolds ∧ sch'.startTime = sch.startTime ∧
      sch'.endTime = sch.endTime := by
  induction ops generalizing sch with
  | nil =>
    simp only [applySlotOps] at h
    injection h with h'
    subst h'
    exact ⟨hinv, rfl, rfl⟩
  | cons op rest ih =>
    simp only [applySlotOps] at h
    cases hop : applySlotOp sch op with
    | none => rw [hop] at h; exact Option.noConfusion h
    | some sch2 =>
      rw [hop] at h
      obtain ⟨h1, h2, h3⟩ := applySlotOp_invariant hinv hop
      obtain ⟨g1, g2, g3⟩ := ih h1 h
      exact ⟨g1, g2.trans h2, g3.trans h3⟩

theorem init_invariant (s e : ℚ) : (Schedule.init s e).invariantHolds := by
  refine ⟨by simp [Schedule.init], ?_, ?_⟩
  · simp [Schedule.init, tiling]
  · simp [Schedule.init, noTwoOpen]

/-- Claim C1 (amended): for every Schedule constructed over a horizon
`[start, end)` and after any sequence of successful `insert_slot` and
`change_slot_block` operations *with nonnegative slot indices* on it,
the slot sequence remains a gap-free ordered partition of the horizon:
`slot[i].end == slot[i+1].start` for every adjacent pair, the first
slot starts at the horizon start, the last slot ends at the horizon
end, and no two consecutive slots are both unoccupied.  (The original
claim, over *any* successful operations, is false: Python accepts a
negative `slot_index` with wrap-around, and a negative-index
`change_slot_block` call can succeed while breaking the partition —
see `C1_negative_index_counterexample`.) -/
theorem C1_schedule_partition_invariant (s e : ℚ) (ops : List SlotOp)
    (sch' : Schedule)
    (h : applySlotOps (Schedule.init s e) ops = some sch') :
    sch'.slots ≠ [] ∧
      List.Chain' (fun x y : Slot => x.stop = y.start) sch'.slots ∧
      sch'.slots.head?.map Slot.start = some s ∧
      sch'.slots.getLast?.map Slot.stop = some e ∧
      noTwoOpen sch'.slots := by
  obtain ⟨⟨hne, htile, hocc⟩, hs, he⟩ :=
    applySlotOps_invariant (init_invariant s e) h
  rw [hs, he] at htile
  simp only [Schedule.init] at htile
  exact ⟨hne, tiling_chain' htile, tiling_head? htile hne,
    tiling_getLast? htile hne, hocc⟩

/-- A concrete operation sequence used by the claim C1 witness: place an
observing block, place a transition after it, then resize the
transition in place. -/
def demoOpsC1 : List SlotOp :=
  [SlotOp.ins 600 (mkObservingBlock 0 600 1 [] none),
   SlotOp.ins 1200 (mkTransitionBlock [("slew_time", 300)] (some 1200)),
   SlotOp.chg 2 (mkTransitionBlock [("slew_time", 600)] (some 1200))]

/-- Witness for claim C1 at a concrete horizon and operation list. -/
theorem C1_schedule_partition_invariant_witness :
    ((applySlotOps (Schedule.init 0 3600) demoOpsC1).getD
        (Schedule.init 0 0)).slots ≠ [] ∧
      List.Chain' (fun x y : Slot => x.stop = y.start)
        ((applySlotOps (Schedule.init 0 3600) demoOpsC1).getD
          (Schedule.init 0 0)).slots ∧
      ((applySlotOps (Schedule.init 0 3600) demoOpsC1).getD
          (Schedule.init 0 0)).slots.head?.map Slot.start = some 0 ∧
      ((applySlotOps (Schedule.init 0 3600) demoOpsC1).getD
          (Schedule.init 0 0)).slots.getLast?.map Slot.stop = some 3600 ∧
      noTwoOpen ((applySlotOps (Schedule.init 0 3600) demoOpsC1).getD
        (Schedule.init 0 0)).slots :=
  C1_schedule_partition_invariant 0 3600 demoOpsC1 _ (by with_unfolding_all rfl)

theorem snap_bounds_cases (slot : Slot) (blk : Block) (t : ℚ) :
    ((snap_bounds slot blk t).2.1 = slot.start ∨
      (snap_bounds slot blk t).2.1 = snap_start slot blk t) ∧
    ((snap_bounds slot blk t).2.2 = slot.stop ∨
      (snap_bounds slot blk t).2.2 =
        (snap_bounds slot blk t).2.1 + blk.duration) := by
  unfold snap_bounds
  dsimp only
  split
  · exact ⟨Or.inl rfl, Or.inl rfl⟩
  · split
    · exact ⟨Or.inl rfl, Or.inr rfl⟩
    · split
      · exact ⟨Or.inr rfl, Or.inl rfl⟩
      · exact ⟨Or.inr rfl, Or.inr rfl⟩

/-- The middle fragment as it appears in the schedule after
`insert_slot`: the snapped interval, occupied by the mutated block. -/
def placedMiddle (dse : ℚ × ℚ × ℚ) (blk : Block) : Slot :=
  { start := dse.2.1, stop := dse.2.2, occupied := true, middle := true,
    block := some (snappedBlock blk dse) }

theorem split_slot_ok {s : Slot} (hocc : s.occupied = false) (a b : ℚ) :
    ∃ ns, s.split_slot a b = .ok ns := by
  unfold Slot.split_slot
  rw [if_neg (by simp [hocc])]
  split
  · exact ⟨_, rfl⟩
  · split
    · exact ⟨_, rfl⟩
    · split
      · exact ⟨_, rfl⟩
      · exact ⟨_, rfl⟩

/-- Claim C7: `Schedule.insert_slot(start_time, block)` raises the
fatal `'longer block than slot'` error if and only if `block.duration`
exceeds the duration of the located slot by more than the 1-second
snap tolerance; otherwise (the located slot being free) it places the
block, snapping its start to the slot's start (or the fit-adjusted
request) and its end to the slot's end (or to the exact fit
`start + duration`). -/
theorem C7_insert_slot_longer_block (sch : Schedule) (t : ℚ) (blk : Block)
    (j : ℕ) (hfind : findSlotIndex sch t = some j)
    (hj : j < sch.slots.length)
    (hocc : (sch.slots[j]).occupied = false) :
    (sch.insert_slot t blk = .error "longer block than slot" ↔
      blk.duration - (sch.slots[j]).duration > 1) ∧
    (¬ blk.duration - (sch.slots[j]).duration > 1 →
      ∃ sch2, sch.insert_slot t blk = .ok sch2 ∧
        ∃ sl ∈ sch2.slots, sl.occupied = true ∧
          (∃ b2, sl.block = some b2 ∧ b2.target = blk.target ∧
            b2.kind = blk.kind) ∧
          (sl.start = (sch.slots[j]).start ∨
            sl.start = snap_start (sch.slots[j]) blk t) ∧
          (sl.stop = (sch.slots[j]).stop ∨
            sl.stop = sl.start + blk.duration)) := by
  unfold Schedule.insert_slot
  rw [hfind]
  dsimp only
  rw [List.getElem?_eq_getElem hj]
  dsimp only
  by_cases hd : blk.duration - (sch.slots[j]).duration > 1
  · rw [if_pos hd]
    exact ⟨⟨fun _ => hd, fun _ => rfl⟩, fun hc => absurd hd hc⟩
  · rw [if_neg hd]
    obtain ⟨ns, hns⟩ := split_slot_ok hocc
      (snap_bounds sch.slots[j] blk t).2.1 (snap_bounds sch.slots[j] blk t).2.2
    rw [hns]
    dsimp only
    constructor
    · exact ⟨fun h => Except.noConfusion h, fun h => absurd h hd⟩
    · intro _
      refine ⟨_, rfl, ?_⟩
      -- locate the marked middle fragment among the split results
      have hb := snap_bounds_cases sch.slots[j] blk t
      have hmid : placedMiddle (snap_bounds sch.slots[j] blk t) blk ∈
          markMiddle (snappedBlock blk (snap_bounds sch.slots[j] blk t)) ns := by
        unfold Slot.split_slot at hns
        rw [if_neg (by simp [hocc])] at hns
        split at hns
        · injection hns with hns'
          subst hns'
          simp [markMiddle, placedMiddle]
        · split at hns
          · injection hns with hns'
            subst hns'
            simp [markMiddle, placedMiddle]
          · split at hns
            · injection hns with hns'
              subst hns'
              simp [markMiddle, placedMiddle]
            · injection hns with hns'
              subst hns'
              simp [markMiddle, placedMiddle]
      exact ⟨placedMiddle (snap_bounds sch.slots[j] blk t) blk,
        List.mem_append.mpr (Or.inl (List.mem_append.mpr (Or.inr hmid))),
        rfl, ⟨_, rfl, rfl, rfl⟩, hb.1, hb.2⟩

/-- A concrete free-slot schedule used by the claim C7 witness. -/
def demoSchedC7 : Schedule := Schedule.init 0 3600

/-- Witness for claim C7: inserting a 600 s block at t = 600 into the
single free slot of a `[0, 3600)` schedule. -/
theorem C7_insert_slot_longer_block_witness :
    (demoSchedC7.insert_slot 600 (mkObservingBlock 0 600 1 [] none) =
        .error "longer block than slot" ↔
      (mkObservingBlock 0 600 1 [] none).duration -
        (demoSchedC7.slots[0]).duration > 1) ∧
    (¬ (mkObservingBlock 0 600 1 [] none).duration -
        (demoSchedC7.slots[0]).duration > 1 →
      ∃ sch2, demoSchedC7.insert_slot 600 (mkObservingBlock 0 600 1 [] none) =
          .ok sch2 ∧
        ∃ sl ∈ sch2.slots, sl.occupied = true ∧
          (∃ b2, sl.block = some b2 ∧
            b2.target = (mkObservingBlock 0 600 1 [] none).target ∧
            b2.kind = (mkObservingBlock 0 600 1 [] none).kind) ∧
          (sl.start = (demoSchedC7.slots[0]).start ∨
            sl.start = snap_start demoSchedC7.slots[0]
              (mkObservingBlock 0 600 1 [] none) 600) ∧
          (sl.stop = (demoSchedC7.slots[0]).stop ∨
            sl.stop = sl.start +
              (mkObservingBlock 0 600 1 [] none).duration)) :=
  C7_insert_slot_longer_block demoSchedC7 600 (mkObservingBlock 0 600 1 [] none)
    0 (by with_unfolding_all rfl) (by decide) (by with_unfolding_all rfl)

/-- Claim C8: `change_slot_block(slot_index, new_block)` on a slot with
a following slot errors exactly when the following slot already holds
a block; when it is free, it resizes the target slot to
`start + new_block.duration`, assigns the new block, and pushes the
following slot's start forward to the new end. -/
theorem C8_change_slot_block_resize (sch : Schedule) (i : ℕ) (nb : Block)
    (hlen : i + 1 < sch.slots.length) :
    ((sch.change_slot_block i nb).2.isSome ↔
      (sch.slots[i+1]).block.isSome) ∧
    ((sch.slots[i+1]).block = none →
      sch.change_slot_block i nb =
        ({ sch with
           slots :=
             (sch.slots.set i (resizedSlot sch.slots[i] nb)).set (i + 1)
               (pushedSlot sch.slots[i+1]
                 ((sch.slots[i]).start + nb.duration)) },
         none)) := by
  unfold Schedule.change_slot_block
  rw [List.getElem?_eq_getElem (by omega : i < sch.slots.length)]
  dsimp only
  rw [show (sch.slots.set i (resizedSlot sch.slots[i] nb))[i+1]? =
      some (sch.slots[i+1]) from by
    rw [List.getElem?_set_ne (by omega)]
    exact List.getElem?_eq_getElem hlen]
  dsimp only
  by_cases hfull : (sch.slots[i+1]).block.isSome
  · rw [if_pos hfull]
    refine ⟨⟨fun _ => hfull, fun _ => rfl⟩, fun hnone => ?_⟩
    rw [hnone] at hfull
    simp at hfull
  · rw [if_neg hfull]
    exact ⟨⟨fun h => by simp at h, fun h => absurd h hfull⟩, fun _ => rfl⟩

/-- A concrete schedule (an occupied slot followed by a free slot) used
by the claim C8 witness. -/
def demoSchedC8 : Schedule :=
  { startTime := 0, endTime := 100,
    slots := [{ start := 0, stop := 30, occupied := true, middle := true,
                block := some (mkTransitionBlock [("slew_time", 30)] (some 0)) },
              { start := 30, stop := 100 }] }

/-- Witness for claim C8: resizing the transition slot of a two-slot
schedule whose second slot is free. -/
theorem C8_change_slot_block_resize_witness :
    ((demoSchedC8.change_slot_block 0
        (mkTransitionBlock [("slew_time", 50)] (some 0))).2.isSome ↔
      (demoSchedC8.slots[1]).block.isSome) ∧
    ((demoSchedC8.slots[1]).block = none →
      demoSchedC8.change_slot_block 0
          (mkTransitionBlock [("slew_time", 50)] (some 0)) =
        ({ demoSchedC8 with
           slots :=
             (demoSchedC8.slots.set 0 (resizedSlot demoSchedC8.slots[0]
               (mkTransitionBlock [("slew_time", 50)] (some 0)))).set 1
               (pushedSlot demoSchedC8.slots[1]
                 ((demoSchedC8.slots[0]).start +
                   (mkTransitionBlock [("slew_time", 50)]
                     (some 0)).duration)) },
         none)) :=
  C8_change_slot_block_resize demoSchedC8 0
    (mkTransitionBlock [("slew_time", 50)] (some 0)) (by decide)

/-- Claim C10: when `change_slot_block` raises because the following
slot is occupied, the schedule has already been mutated: the target
slot's end and block were reassigned, the following slot was not
updated, and the slot sequence is no longer contiguous. -/
theorem C10_change_slot_block_mutates_on_error (sch : Schedule) (i : ℕ)
    (nb : Block) (hlen : i + 1 < sch.slots.length)
    (hfull : (sch.slots[i+1]).block.isSome = true)
    (hcontig : (sch.slots[i]).stop = (sch.slots[i+1]).start)
    (hmoved : (sch.slots[i]).start + nb.duration ≠ (sch.slots[i]).stop) :
    (sch.change_slot_block i nb).2 = some "slot afterwards is full" ∧
    (sch.change_slot_block i nb).1.slots =
      sch.slots.set i (resizedSlot sch.slots[i] nb) ∧
    (sch.change_slot_block i nb).1.slots ≠ sch.slots ∧
    ¬ List.Chain' (fun x y : Slot => x.stop = y.start)
        (sch.change_slot_block i nb).1.slots := by
  have hres : sch.change_slot_block i nb =
      ({ sch with slots := sch.slots.set i (resizedSlot sch.slots[i] nb) },
        some "slot afterwards is full") := by
    unfold Schedule.change_slot_block
    rw [List.getElem?_eq_getElem (by omega : i < sch.slots.length)]
    dsimp only
    rw [show (sch.slots.set i (resizedSlot sch.slots[i] nb))[i+1]? =
        some (sch.slots[i+1]) from by
      rw [List.getElem?_set_ne (by omega)]
      exact List.getElem?_eq_getElem hlen]
    dsimp only
    rw [if_pos hfull]
  rw [hres]
  refine ⟨rfl, rfl, ?_, ?_⟩
  · intro heq
    have hcast := congrArg (fun l => l[i]?) heq
    simp only at hcast
    rw [List.getElem?_set_eq_of_lt _ (by omega : i < sch.slots.length),
      List.getElem?_eq_getElem (by omega : i < sch.slots.length)] at hcast
    injection hcast with hcast2
    exact hmoved (congrArg Slot.stop hcast2)
  · intro hch
    have hrel := List.chain'_iff_get.mp hch i (by
      simp only [List.length_set]
      omega)
    have hgi : (sch.slots.set i (resizedSlot sch.slots[i] nb)).get
        ⟨i, by simp only [List.length_set]; omega⟩ =
        resizedSlot sch.slots[i] nb := by
      rw [List.get_eq_getElem]
      exact List.getElem_set_self (by simp only [List.length_set]; omega)
    have hgi1 : (sch.slots.set i (resizedSlot sch.slots[i] nb)).get
        ⟨i + 1, by simp only [List.length_set]; omega⟩ = sch.slots[i+1] := by
      rw [List.get_eq_getElem]
      exact List.getElem_set_ne (show i ≠ i + 1 from by omega)
        (by simp only [List.length_set]; omega)
    rw [hgi, hgi1] at hrel
    exact hmoved ((show (sch.slots[i]).start + nb.duration =
      (sch.slots[i+1]).start from hrel).trans hcontig.symm)

/-- A transition block used by the claim C10 witness. -/
def demoBlockC10 : Block := mkTransitionBlock [("slew_time", 50)] (some 0)

/-- A schedule with a transition slot followed by an occupied slot,
used by the claim C10 witness. -/
def demoSchedC10 : Schedule :=
  { startTime := 0, endTime := 100,
    slots := [{ start := 0, stop := 30, occupied := true, middle := true,
                block := some (mkTransitionBlock [("slew_time", 30)]
                  (some 0)) },
              { start := 30, stop := 100, occupied := true, middle := true,
                block := some (mkObservingBlock 1 70 1 [] none) }] }

/-- Witness for claim C10: resizing the transition slot to 50 s while
the following slot is occupied raises, leaving the resized slot in
place and the timeline discontiguous. -/
theorem C10_change_slot_block_mutates_on_error_witness :
    (demoSchedC10.change_slot_block 0 demoBlockC10).2 =
        some "slot afterwards is full" ∧
    (demoSchedC10.change_slot_block 0 demoBlockC10).1.slots =
      demoSchedC10.slots.set 0 (resizedSlot
        { start := 0, stop := 30, occupied := true, middle := true,
          block := some (mkTransitionBlock [("slew_time", 30)] (some 0)) }
        demoBlockC10) ∧
    (demoSchedC10.change_slot_block 0 demoBlockC10).1.slots ≠
      demoSchedC10.slots ∧
    ¬ List.Chain' (fun x y : Slot => x.stop = y.start)
        (demoSchedC10.change_slot_block 0 demoBlockC10).1.slots :=
  C10_change_slot_block_mutates_on_error demoSchedC10 0 demoBlockC10
    (by with_unfolding_all decide) (by with_unfolding_all rfl)
    (by with_unfolding_all rfl) (by with_unfolding_all decide)


/-! ### Transitioner (`Transitioner.__call__`,
`compute_instrument_transitions`) -/

/-- One per-property reconfiguration table: the Python dict maps
2-tuples of states to times and may also hold a `'default'` key. -/
structure ReconfigTable where
  entries : List ((String × String) × ℚ)
  default : Option ℚ := none

/-- `Transitioner.__init__(slew_rate, instrument_reconfig_times)`. -/
structure Transitioner where
  slew_rate : Option ℚ
  instrument_reconfig_times : Option (List (String × ReconfigTable))

/-- `Transitioner.compute_instrument_transitions(oldblock, newblock)`:
one component per configuration key shared by both blocks, taken from
the key's table at `(old state, new state)`, falling back to the
table's `'default'` time when that entry is absent, the default is
truthy (nonzero) and the states differ. -/
def computeInstrumentTransitions
    (tables : List (String × ReconfigTable)) (oldblock newblock : Block) :
    List (String × ℚ) :=
  oldblock.configuration.foldl
    (fun components kv =>
      let conf_name := kv.1
      let old_conf := kv.2
      match newblock.configuration.lookup conf_name with
      | none => components
      | some new_conf =>
        match tables.lookup conf_name with
        | none => components
        | some conf_times =>
          let s := conf_name ++ ":" ++ old_conf ++ " to " ++ new_conf
          match conf_times.entries.lookup (old_conf, new_conf) with
          | some ctime => components ++ [(s, ctime)]
          | none =>
            match conf_times.default with
            | some def_time =>
              if def_time ≠ 0 ∧ ¬ old_conf = new_conf then
                components ++ [(s, def_time)]
              else components
            | none => components)
    []

/-- `Transitioner.__call__(oldblock, newblock, start_time, observer)`.
The angular separation of the two targets' horizontal positions at
`start_time` is the opaque coordinate collaborator; it is passed in as
`sep`.  When any component applies the result is a `TransitionBlock`
with the given start time, otherwise the explicit zero-duration
`TransitionBlock.from_duration(0*u.second)` (whose start time is
`None`).  Both paths return a block — never an absent value. -/
def Transitioner.call (tr : Transitioner) (sep : ℚ)
    (oldblock newblock : Block) (start_time : ℚ) : Block :=
  let slewComponents : List (String × ℚ) :=
    match tr.slew_rate with
    | some rate => [("slew_time", sep / rate)]
    | none => []
  let components := slewComponents ++
    (match tr.instrument_reconfig_times with
     | some tables => computeInstrumentTransitions tables oldblock newblock
     | none => [])
  if components ≠ [] then mkTransitionBlock components (some start_time)
  else TransitionBlock.from_duration 0

/-- Claim C9: `Transitioner.__call__` always returns a
`TransitionBlock` value (never an absent/`None` result), and with no
slew rate and no instrument-reconfiguration table configured it
returns an explicit zero-duration `TransitionBlock`. -/
theorem C9_transitioner_zero_duration (sep : ℚ)
    (oldblock newblock : Block) (start_time : ℚ) :
    (∀ tr : Transitioner,
      (tr.call sep oldblock newblock start_time).kind = BlockKind.trans) ∧
    (Transitioner.call { slew_rate := none, instrument_reconfig_times := none }
        sep oldblock newblock start_time).duration = 0 ∧
    Transitioner.call { slew_rate := none, instrument_reconfig_times := none }
        sep oldblock newblock start_time = TransitionBlock.from_duration 0 := by
  refine ⟨?_, ?_, ?_⟩
  · intro tr
    unfold Transitioner.call
    dsimp only
    split
    · rfl
    · rfl
  · unfold Transitioner.call
    norm_num [TransitionBlock.from_duration, mkTransitionBlock]
  · rfl

/-! ### Scorer (`Scorer.create_score_array`) -/

/-- Modelled from the spec: `time_grid_from_range` (imported from
`astroplan.utils`, whose source is not part of the scheduling module)
"builds a uniform time grid over [schedule.start, schedule.end] at the
given resolution"; with `numpy.arange` semantics the grid holds
`⌈(end - start)/resolution⌉` points `start + k·resolution`. -/
def time_grid_from_range (start stop resolution : ℚ) : List ℚ :=
  if 0 < resolution then
    (List.range (⌈(stop - start) / resolution⌉).toNat).map
      (fun k : ℕ => start + (k : ℚ) * resolution)
  else []

/-- One elementwise multiplication of a score row by a constraint
evaluated on `[target, times]` (`score_array[i] *= applied_score`). -/
def applyConstraintRow (target : ℕ) (times : List ℚ) (row : List ℚ)
    (c : Constraint) : List ℚ :=
  List.zipWith (· * ·) row (times.map (c.eval target))

/-- `Scorer.__init__(blocks, observer, schedule, global_constraints)`;
the observer is folded into each constraint's evaluation function. -/
structure Scorer where
  blocks : List Block
  schedule : Schedule
  global_constraints : List Constraint

/-- `Scorer.create_score_array(time_resolution)`: a ones matrix of
shape (blocks × grid); each block's row is multiplied elementwise by
each of its own constraints (skipped when `block.constraints` is
`None` or empty — Python truthiness); then every global constraint,
evaluated on the full target list, multiplies the whole matrix.  The
global loop is translated row-by-row, which is elementwise
identical. -/
def Scorer.create_score_array (sc : Scorer) (time_resolution : ℚ) :
    List (List ℚ) :=
  let times := time_grid_from_range sc.schedule.startTime
    sc.schedule.endTime time_resolution
  let score0 := sc.blocks.map (fun b =>
    match b.constraints with
    | some (c :: cs) =>
        (c :: cs).foldl (applyConstraintRow b.target times)
          (times.map fun _ => (1 : ℚ))
    | _ => times.map fun _ => (1 : ℚ))
  sc.global_constraints.foldl
    (fun arr c =>
      List.zipWith (fun b row => applyConstraintRow b.target times row c)
        sc.blocks arr)
    score0

theorem getD_zipWith_mul (a b : List ℚ) (j : ℕ) (hja : j < a.length)
    (hjb : j < b.length) :
    (List.zipWith (· * ·) a b).getD j 0 = a.getD j 0 * b.getD j 0 := by
  rw [List.getD_eq_getElem _ _ (by rw [List.length_zipWith]; omega),
    List.getD_eq_getElem _ _ hja, List.getD_eq_getElem _ _ hjb,
    List.getElem_zipWith]

theorem applyConstraintRow_length (target : ℕ) (times row : List ℚ)
    (c : Constraint) (h : row.length = times.length) :
    (applyConstraintRow target times row c).length = times.length := by
  rw [applyConstraintRow, List.length_zipWith, List.length_map, h,
    min_self]

theorem getD_applyConstraintRow (target : ℕ) (times row : List ℚ)
    (c : Constraint) (h : row.length = times.length) (j : ℕ)
    (hj : j < times.length) :
    (applyConstraintRow target times row c).getD j 0 =
      row.getD j 0 * c.eval target (times.getD j 0) := by
  rw [applyConstraintRow,
    getD_zipWith_mul _ _ _ (by omega) (by rw [List.length_map]; omega)]
  congr 1
  rw [List.getD_eq_getElem _ _ (by rw [List.length_map]; omega),
    List.getD_eq_getElem _ _ hj, List.getElem_map]

theorem foldl_applyConstraintRow (target : ℕ) (times : List ℚ) :
    ∀ (cs : List Constraint) (row : List ℚ),
      row.length = times.length →
      (cs.foldl (applyConstraintRow target times) row).length =
        times.length ∧
      ∀ j, j < times.length →
        (cs.foldl (applyConstraintRow target times) row).getD j 0 =
          row.getD j 0 *
            (cs.map (fun c => c.eval target (times.getD j 0))).prod := by
  intro cs
  induction cs with
  | nil =>
    intro row h
    exact ⟨h, fun j _ => by simp⟩
  | cons c cs ih =>
    intro row h
    have h1 := applyConstraintRow_length target times row c h
    obtain ⟨hlen, hval⟩ := ih (applyConstraintRow target times row c) h1
    refine ⟨hlen, fun j hj => ?_⟩
    rw [List.foldl_cons, hval j hj,
      getD_applyConstraintRow target times row c h j hj, List.map_cons,
      List.prod_cons]
    ring

theorem foldl_global_constraints (blocks : List Block) (times : List ℚ) :
    ∀ (gcs : List Constraint) (arr : List (List ℚ)),
      arr.length = blocks.length →
      (∀ i, i < blocks.length → (arr.getD i []).length = times.length) →
      (gcs.foldl
        (fun arr c =>
          List.zipWith (fun b row => applyConstraintRow b.target times row c)
            blocks arr) arr).length = blocks.length ∧
      (∀ i, i < blocks.length →
        ((gcs.foldl
          (fun arr c =>
            List.zipWith
              (fun b row => applyConstraintRow b.target times row c)
              blocks arr) arr).getD i []).length = times.length) ∧
      (∀ i, i < blocks.length → ∀ j, j < times.length →
        ((gcs.foldl
          (fun arr c =>
            List.zipWith
              (fun b row => applyConstraintRow b.target times row c)
              blocks arr) arr).getD i []).getD j 0 =
          (arr.getD i []).getD j 0 *
            (gcs.map (fun c =>
              c.eval (blocks.getD i default).target (times.getD j 0))).prod) := by
  intro gcs
  induction gcs with
  | nil =>
    intro arr hlen hrows
    exact ⟨hlen, hrows, fun i hi j hj => by simp⟩
  | cons c gcs ih =>
    intro arr hlen hrows
    have hzlen : (List.zipWith
        (fun b row => applyConstraintRow b.target times row c)
        blocks arr).length = blocks.length := by
      rw [List.length_zipWith, hlen, min_self]
    have hzget : ∀ i, i < blocks.length →
        ((List.zipWith
          (fun b row => applyConstraintRow b.target times row c)
          blocks arr).getD i []) =
        applyConstraintRow (blocks.getD i default).target times
          (arr.getD i []) c := by
      intro i hi
      rw [List.getD_eq_getElem _ _ (by omega), List.getElem_zipWith,
        List.getD_eq_getElem _ _ hi,
        List.getD_eq_getElem _ _ (by omega : i < arr.length)]
    have hzrows : ∀ i, i < blocks.length →
        ((List.zipWith
          (fun b row => applyConstraintRow b.target times row c)
          blocks arr).getD i []).length = times.length := by
      intro i hi
      rw [hzget i hi]
      exact applyConstraintRow_length _ _ _ _ (hrows i hi)
    obtain ⟨g1, g2, g3⟩ := ih _ hzlen hzrows
    refine ⟨g1, g2, fun i hi j hj => ?_⟩
    rw [List.foldl_cons]
    rw [g3 i hi j hj, hzget i hi,
      getD_applyConstraintRow _ _ _ _ (hrows i hi) j hj, List.map_cons,
      List.prod_cons]
    ring

/-- Claim C4: `Scorer.create_score_array(time_resolution)` returns an
array of shape (blocks × grid points) over a uniform grid spanning the
schedule horizon; entry `(i, j)` is the product of block `i`'s own
constraints and all global constraints evaluated at `(target_i,
times_j)`, so it is zero whenever any applicable constraint scores
zero there. -/
theorem C4_create_score_array (sc : Scorer) (res : ℚ) (i j : ℕ)
    (hi : i < sc.blocks.length)
    (hj : j < (time_grid_from_range sc.schedule.startTime
      sc.schedule.endTime res).length) :
    (sc.create_score_array res).length = sc.blocks.length ∧
    (∀ k, k < sc.blocks.length →
      ((sc.create_score_array res).getD k []).length =
        (time_grid_from_range sc.schedule.startTime
          sc.schedule.endTime res).length) ∧
    (∀ k, k < (time_grid_from_range sc.schedule.startTime
        sc.schedule.endTime res).length →
      (time_grid_from_range sc.schedule.startTime
        sc.schedule.endTime res).getD k 0 =
        sc.schedule.startTime + k * res) ∧
    ((sc.create_score_array res).getD i []).getD j 0 =
      (((sc.blocks.getD i default).constraints.getD []).map
        (fun c => c.eval (sc.blocks.getD i default).target
          ((time_grid_from_range sc.schedule.startTime
            sc.schedule.endTime res).getD j 0))).prod *
      (sc.global_constraints.map
        (fun c => c.eval (sc.blocks.getD i default).target
          ((time_grid_from_range sc.schedule.startTime
            sc.schedule.endTime res).getD j 0))).prod ∧
    (∀ c : Constraint,
      (c ∈ (sc.blocks.getD i default).constraints.getD [] ∨
        c ∈ sc.global_constraints) →
      c.eval (sc.blocks.getD i default).target
        ((time_grid_from_range sc.schedule.startTime
          sc.schedule.endTime res).getD j 0) = 0 →
      ((sc.create_score_array res).getD i []).getD j 0 = 0) := by
  have hgrid : ∀ k, k < (time_grid_from_range sc.schedule.startTime
      sc.schedule.endTime res).length →
      (time_grid_from_range sc.schedule.startTime
        sc.schedule.endTime res).getD k 0 =
        sc.schedule.startTime + k * res := by
    intro k hk
    unfold time_grid_from_range at hk ⊢
    split at hk
    · rename_i hres
      rw [if_pos hres, List.getD_eq_getElem _ _ hk, List.getElem_map,
        List.getElem_range]
    · simp at hk
  -- the per-block base rows
  set times := time_grid_from_range sc.schedule.startTime
    sc.schedule.endTime res with htimes
  have hbase : ∀ k, k < sc.blocks.length →
      ((sc.blocks.map (fun b =>
        match b.constraints with
        | some (c :: cs) =>
            (c :: cs).foldl (applyConstraintRow b.target times)
              (times.map fun _ => (1 : ℚ))
        | _ => times.map fun _ => (1 : ℚ))).getD k []).length =
        times.length ∧
      ∀ j2, j2 < times.length →
        ((sc.blocks.map (fun b =>
          match b.constraints with
          | some (c :: cs) =>
              (c :: cs).foldl (applyConstraintRow b.target times)
                (times.map fun _ => (1 : ℚ))
          | _ => times.map fun _ => (1 : ℚ))).getD k []).getD j2 0 =
          (((sc.blocks.getD k default).constraints.getD []).map
            (fun c => c.eval (sc.blocks.getD k default).target
              (times.getD j2 0))).prod := by
    intro k hk
    rw [List.getD_eq_getElem _ _ (by rw [List.length_map]; omega),
      List.getElem_map,
      show sc.blocks.getD k default = sc.blocks[k] from
        List.getD_eq_getElem _ _ hk]
    have hones : (times.map fun _ => (1:ℚ)).length = times.length :=
      List.length_map _ _
    have honesget : ∀ j2, j2 < times.length →
        (times.map fun _ => (1:ℚ)).getD j2 0 = 1 := by
      intro j2 hj2
      rw [List.getD_eq_getElem _ _ (by rw [List.length_map]; omega),
        List.getElem_map]
    cases hoc : (sc.blocks[k]).constraints with
    | none =>
      refine ⟨hones, fun j2 hj2 => ?_⟩
      rw [honesget j2 hj2]
      simp
    | some cs =>
      cases cs with
      | nil =>
        refine ⟨hones, fun j2 hj2 => ?_⟩
        rw [honesget j2 hj2]
        simp
      | cons c0 cs0 =>
        obtain ⟨hl, hv⟩ := foldl_applyConstraintRow
          (sc.blocks[k]).target times (c0 :: cs0)
          (times.map fun _ => (1:ℚ)) hones
        refine ⟨hl, fun j2 hj2 => ?_⟩
        rw [hv j2 hj2, honesget j2 hj2]
        simp
  unfold Scorer.create_score_array
  rw [← htimes]
  obtain ⟨g1, g2, g3⟩ := foldl_global_constraints sc.blocks times
    sc.global_constraints _
    (by rw [List.length_map]) (fun k hk => (hbase k hk).1)
  refine ⟨g1, g2, hgrid, ?_, ?_⟩
  · rw [g3 i hi j hj, (hbase i hi).2 j hj]
  · intro c hc hzero
    rw [g3 i hi j hj, (hbase i hi).2 j hj]
    rcases hc with hc | hc
    · rw [List.prod_eq_zero (List.mem_map.mpr ⟨c, hc, hzero⟩)]
      ring
    · rw [List.prod_eq_zero (List.mem_map.mpr ⟨c, hc, hzero⟩)]
      ring

/-- A concrete scorer (one block with one time-valued constraint, one
constant global constraint) used by the claim C4 witness. -/
def demoScorer : Scorer :=
  { blocks := [mkObservingBlock 0 600 1 []
      (some [{ isAlt := true, eval := fun _ t => t }])],
    schedule := Schedule.init 0 10,
    global_constraints := [{ isAlt := true, eval := fun _ _ => 3 }] }

/-- Witness for claim C4 on a concrete scorer, resolution 2, entry
(0, 1). -/
theorem C4_create_score_array_witness :
    (demoScorer.create_score_array 2).length = demoScorer.blocks.length ∧
    (∀ k, k < demoScorer.blocks.length →
      ((demoScorer.create_score_array 2).getD k []).length =
        (time_grid_from_range demoScorer.schedule.startTime
          demoScorer.schedule.endTime 2).length) ∧
    (∀ k, k < (time_grid_from_range demoScorer.schedule.startTime
        demoScorer.schedule.endTime 2).length →
      (time_grid_from_range demoScorer.schedule.startTime
        demoScorer.schedule.endTime 2).getD k 0 =
        demoScorer.schedule.startTime + k * 2) ∧
    ((demoScorer.create_score_array 2).getD 0 []).getD 1 0 =
      (((demoScorer.blocks.getD 0 default).constraints.getD []).map
        (fun c => c.eval (demoScorer.blocks.getD 0 default).target
          ((time_grid_from_range demoScorer.schedule.startTime
            demoScorer.schedule.endTime 2).getD 1 0))).prod *
      (demoScorer.global_constraints.map
        (fun c => c.eval (demoScorer.blocks.getD 0 default).target
          ((time_grid_from_range demoScorer.schedule.startTime
            demoScorer.schedule.endTime 2).getD 1 0))).prod ∧
    (∀ c : Constraint,
      (c ∈ (demoScorer.blocks.getD 0 default).constraints.getD [] ∨
        c ∈ demoScorer.global_constraints) →
      c.eval (demoScorer.blocks.getD 0 default).target
        ((time_grid_from_range demoScorer.schedule.startTime
          demoScorer.schedule.endTime 2).getD 1 0) = 0 →
      ((demoScorer.create_score_array 2).getD 0 []).getD 1 0 = 0) :=
  C4_create_score_array demoScorer 2 0 1 (by decide)
    (by with_unfolding_all decide)

/-! ### Scheduler configuration and the `_all_constraints` merge

Both `SequentialScheduler._make_schedule` and
`PriorityScheduler._make_schedule` open with the same per-block merge:

```
if b.constraints is None:
    b._all_constraints = self.constraints        # aliases the list!
else:
    b._all_constraints = self.constraints + b.constraints
if b._all_constraints is None:
    b._all_constraints = [AltitudeConstraint(min=0*u.deg)]
elif not any(isinstance(c, AltitudeConstraint) for c in b._all_constraints):
    b._all_constraints.append(AltitudeConstraint(min=0*u.deg))
```

When `b.constraints is None` and `self.constraints` is a list, the
`append` mutates the scheduler's own constraint list.  The mutation is
modelled by threading the current `self.constraints` value through the
per-block steps; this is faithful because the list can be appended to
at most once (afterwards it contains an altitude constraint, so the
`any` test stops further appends), so every later observation of
`self.constraints` sees exactly the threaded value. -/

/-- Scheduler configuration (`Scheduler.__init__`) plus the two opaque
external collaborators: `altEval`, the evaluation function of the
default `AltitudeConstraint(min=0*u.deg)`, and `sep`, the
angular-separation function `(target, target, time) ↦ angle` used by
the transitioner's slew term. -/
structure SchedulerConfig where
  constraints : Option (List Constraint)
  transitioner : Option Transitioner := none
  gap_time : ℚ := 300
  time_resolution : ℚ := 20
  altEval : ℕ → ℚ → ℚ := fun _ _ => 1
  sep : ℕ → ℕ → ℚ → ℚ := fun _ _ _ => 0

/-- The default horizon constraint appended by the merge:
`AltitudeConstraint(min=0*u.deg)`. -/
def defaultAltitude (cfg : SchedulerConfig) : Constraint :=
  { isAlt := true, eval := cfg.altEval }

/-- One block's `_all_constraints` merge step; returns the updated
block and the (possibly mutated) scheduler constraint list.  A block
with its own constraints while `self.constraints is None` raises a
`TypeError` (`None + list`). -/
def mergeStep (cfg : SchedulerConfig) (selfC : Option (List Constraint))
    (b : Block) : Except String (Block × Option (List Constraint)) :=
  let allC0 : Except String (Option (List Constraint)) :=
    match b.constraints with
    | none => .ok selfC
    | some bc =>
      match selfC with
      | none => .error "TypeError: unsupported operand type(s) for +"
      | some sc => .ok (some (sc ++ bc))
  match allC0 with
  | .error e => .error e
  | .ok none =>
      .ok ({ b with allConstraints := [defaultAltitude cfg] }, selfC)
  | .ok (some l) =>
      if l.any Constraint.isAlt then
        .ok ({ b with allConstraints := l }, selfC)
      else
        .ok ({ b with allConstraints := l ++ [defaultAltitude cfg] },
          if b.constraints.isNone then some (l ++ [defaultAltitude cfg])
          else selfC)

/-- The merge loop over all blocks, threading `self.constraints`. -/
def mergeBlocks (cfg : SchedulerConfig) :
    Option (List Constraint) → List Block →
    Except String (List Block × Option (List Constraint))
  | selfC, [] => .ok ([], selfC)
  | selfC, b :: rest =>
    match mergeStep cfg selfC b with
    | .error e => .error e
    | .ok (b2, selfC2) =>
      match mergeBlocks cfg selfC2 rest with
      | .error e => .error e
      | .ok (bs, selfC3) => .ok (b2 :: bs, selfC3)

/-! ### SequentialScheduler (`SequentialScheduler._make_schedule`) -/

/-- The three probe instants: `current_time + transition_time +
b._duration_offsets` with offsets `[0, duration/2, duration]` — the
block's start (= the transition's end), midpoint and end. -/
def probeTimes (current_time transition_time duration : ℚ) : List ℚ :=
  [current_time + transition_time,
   current_time + transition_time + duration / 2,
   current_time + transition_time + duration]

/-- `np.prod(constraint_res)`: the product of every constraint of the
block evaluated at every probe instant. -/
def blockFitness (b : Block) (ts : List ℚ) : ℚ :=
  (b.allConstraints.map (fun c => (ts.map (c.eval b.target)).prod)).prod

/-- `np.argmax`: index of the first maximal element (`0` on the empty
list, where NumPy would raise — the loop guard prevents that case). -/
def argmaxAux : List ℚ → ℕ → ℚ → ℕ → ℕ
  | [], bi, _, _ => bi
  | y :: ys, bi, bv, i =>
      if bv < y then argmaxAux ys i y (i + 1) else argmaxAux ys bi bv (i + 1)

/-- First index attaining the maximum of the list. -/
def argmax : List ℚ → ℕ
  | [] => 0
  | x :: xs => argmaxAux xs 0 x 1

/-- The per-block evaluation of one loop iteration: the transition
from the most recently scheduled observing block (`None` when the
schedule holds none) and the scalar fitness.  Calling a `None`
transitioner raises a `TypeError`. -/
def seqCandidates (cfg : SchedulerConfig) (sched : Schedule) (t : ℚ)
    (blocks : List Block) : Except String (List (Option Block × ℚ)) :=
  match sched.observing_blocks.getLast? with
  | none =>
      .ok (blocks.map (fun b =>
        (none, blockFitness b (probeTimes t 0 b.duration))))
  | some ob =>
    match cfg.transitioner with
    | none => .error "TypeError: NoneType object is not callable"
    | some tr =>
      .ok (blocks.map (fun b =>
        let trans := tr.call (cfg.sep ob.target b.target t) ob b t
        (some trans, blockFitness b (probeTimes t trans.duration b.duration))))

/-- The block-placement mutations of the winning branch:
`newb.start_time = current_time`, `current_time += newb.duration`,
`newb.end_time = current_time`, `newb.constraints_value = score`. -/
def placedBlock (b : Block) (t1 score : ℚ) : Block :=
  { b with
    startTime := some t1
    endTime := some (t1 + b.duration)
    constraintsValue := score }

/-- Placement of the winning block: assign times and score, insert it,
pop it from the candidate pool, and return the new pool, clock and
schedule. -/
def seqPlaceStep (blocks : List Block) (m : ℕ) (score t1 : ℚ)
    (sched1 : Schedule) : Except String (List Block × ℚ × Schedule) :=
  let newb0 := blocks.getD m default
  match sched1.insert_slot t1 (placedBlock newb0 t1 score) with
  | .error e => .error e
  | .ok sched2 => .ok (blocks.eraseIdx m, t1 + newb0.duration, sched2)

/-- The `while` loop of `SequentialScheduler._make_schedule`, with a
fuel parameter for termination (`.error "out of fuel"` when
exhausted; the Python loop can run forever when `gap_time ≤ 0`).  On
normal exit the final candidate pool and clock are returned alongside
the schedule. -/
def seqLoop (cfg : SchedulerConfig) :
    ℕ → List Block → ℚ → Schedule →
    Except String (List Block × ℚ × Schedule)
  | 0, _, _, _ => .error "out of fuel"
  | fuel + 1, blocks, t, sched =>
    if blocks.isEmpty ∨ ¬ t < sched.endTime then .ok (blocks, t, sched)
    else
      match seqCandidates cfg sched t blocks with
      | .error e => .error e
      | .ok pairs =>
        let results := pairs.map (·.2)
        let m := argmax results
        if results.getD m 0 = 0 then
          seqLoop cfg fuel blocks (t + cfg.gap_time) sched
        else
          let step1 : Except String (ℚ × Schedule) :=
            match (pairs.getD m (none, 0)).1 with
            | some tr =>
              match tr.startTime with
              | none =>
                  .error "TypeError: comparison of Time and NoneType"
              | some ts =>
                match sched.insert_slot ts tr with
                | .error e => .error e
                | .ok sched1 => .ok (t + tr.duration, sched1)
            | none => .ok (t, sched)
          match step1 with
          | .error e => .error e
          | .ok (t1, sched1) =>
            match seqPlaceStep blocks m (results.getD m 0) t1 sched1 with
            | .error e => .error e
            | .ok (blocks2, t2, sched2) => seqLoop cfg fuel blocks2 t2 sched2

/-- `SequentialScheduler._make_schedule(blocks)`: the constraint merge
followed by the loop from `schedule.start_time`.  The second component
of the result is the scheduler's `self.constraints` after the run
(the merge can mutate it through aliasing). -/
def seq_make_schedule (cfg : SchedulerConfig) (fuel : ℕ)
    (blocks : List Block) (sched : Schedule) :
    Except String (Schedule × Option (List Constraint)) :=
  match mergeBlocks cfg cfg.constraints blocks with
  | .error e => .error e
  | .ok (blocks2, selfC) =>
    match seqLoop cfg fuel blocks2 sched.startTime sched with
    | .error e => .error e
    | .ok (_, _, s) => .ok (s, selfC)

/-! ### Claim C5: mutation of the scheduler's constraint list -/

theorem mergeStep_selfC {cfg : SchedulerConfig}
    {selfC : Option (List Constraint)} {b b2 : Block}
    {selfC1 : Option (List Constraint)}
    (h : mergeStep cfg selfC b = .ok (b2, selfC1)) :
    selfC1 = selfC ∨
      ∃ l, selfC = some l ∧ l.any Constraint.isAlt = false ∧
        selfC1 = some (l ++ [defaultAltitude cfg]) ∧ b.constraints = none := by
  unfold mergeStep at h
  cases hbc : b.constraints with
  | none =>
    rw [hbc] at h
    dsimp only at h
    cases selfC with
    | none =>
      injection h with h'
      injection h' with h1 h2
      exact Or.inl h2.symm
    | some l =>
      dsimp only at h
      split at h
      · injection h with h'
        injection h' with h1 h2
        exact Or.inl h2.symm
      · rename_i hany
        injection h with h'
        injection h' with h1 h2
        split at h2
        · exact Or.inr ⟨l, rfl, by simpa using hany, h2.symm, rfl⟩
        · rename_i hcond
          exact absurd rfl hcond
  | some bc =>
    rw [hbc] at h
    dsimp only at h
    cases selfC with
    | none => exact Except.noConfusion h
    | some sc =>
      dsimp only at h
      split at h
      · injection h with h'
        injection h' with h1 h2
        exact Or.inl h2.symm
      · injection h with h'
        injection h' with h1 h2
        split at h2
        · rename_i hcond
          simp at hcond
        · exact Or.inl h2.symm

theorem mergeBlocks_selfC {cfg : SchedulerConfig} :
    ∀ (blocks : List Block) (selfC : Option (List Constraint))
      (bs : List Block) (selfC2 : Option (List Constraint)),
      mergeBlocks cfg selfC blocks = .ok (bs, selfC2) →
      selfC2 = selfC ∨
        ∃ l, selfC = some l ∧ l.any Constraint.isAlt = false ∧
          selfC2 = some (l ++ [defaultAltitude cfg]) ∧
          ∃ b ∈ blocks, b.constraints = none := by
  intro blocks
  induction blocks with
  | nil =>
    intro selfC bs selfC2 h
    unfold mergeBlocks at h
    injection h with h'
    injection h' with h1 h2
    exact Or.inl h2.symm
  | cons b rest ih =>
    intro selfC bs selfC2 h
    unfold mergeBlocks at h
    cases hstep : mergeStep cfg selfC b with
    | error e => rw [hstep] at h; exact Except.noConfusion h
    | ok p =>
      rw [hstep] at h
      dsimp only at h
      cases hrec : mergeBlocks cfg p.2 rest with
      | error e => rw [hrec] at h; exact Except.noConfusion h
      | ok q =>
        rw [hrec] at h
        dsimp only at h
        injection h with h'
        injection h' with h1 h2
        obtain ⟨b2, selfC1⟩ := p
        obtain ⟨bs1, selfC2'⟩ := q
        dsimp only at hrec h2
        subst h2
        rcases mergeStep_selfC hstep with hkeep | ⟨l, hl, hany, hmut, hbc⟩
        · subst hkeep
          rcases ih _ _ _ hrec with hkeep2 | ⟨l, hl, hany, hmut, b3, hb3, hbc3⟩
          · exact Or.inl hkeep2
          · exact Or.inr ⟨l, hl, hany, hmut, b3, List.mem_cons_of_mem b hb3,
              hbc3⟩
        · rcases ih _ _ _ hrec with hkeep2 | ⟨l1, hl1, hany1, hmut1, b3, hb3,
            hbc3⟩
          · rw [hkeep2, hmut]
            exact Or.inr ⟨l, hl, hany, rfl, b, List.mem_cons_self b rest, hbc⟩
          · rw [hmut] at hl1
            injection hl1 with hl1'
            rw [← hl1'] at hany1
            simp [defaultAltitude] at hany1
  -- (the contradictory branch is closed by `simp` above)

/-- The sequential half of claim C5: the scheduler's constraint list
after a sequential run is either unchanged, or — when it was a list
with no altitude constraint and some block carried no per-block
constraints — the caller's list with the default `AltitudeConstraint`
appended (the source appends to the caller-supplied list through the
`b._all_constraints = self.constraints` alias). -/
theorem seq_constraint_mutation (cfg : SchedulerConfig)
    (fuel : ℕ) (blocks : List Block) (sched s : Schedule)
    (selfC2 : Option (List Constraint))
    (h : seq_make_schedule cfg fuel blocks sched = .ok (s, selfC2)) :
    selfC2 = cfg.constraints ∨
      ∃ l, cfg.constraints = some l ∧ l.any Constraint.isAlt = false ∧
        selfC2 = some (l ++ [defaultAltitude cfg]) ∧
        ∃ b ∈ blocks, b.constraints = none := by
  unfold seq_make_schedule at h
  cases hm : mergeBlocks cfg cfg.constraints blocks with
  | error e => rw [hm] at h; exact Except.noConfusion h
  | ok p =>
    rw [hm] at h
    dsimp only at h
    cases hl : seqLoop cfg fuel p.1 sched.startTime sched with
    | error e =>
      obtain ⟨bs1, selfC1⟩ := p
      dsimp only at hl
      rw [hl] at h
      exact Except.noConfusion h
    | ok r =>
      obtain ⟨bs1, selfC1⟩ := p
      obtain ⟨rb, rt, rs⟩ := r
      dsimp only at hl
      rw [hl] at h
      dsimp only at h
      injection h with h'
      injection h' with h1 h2
      subst h2
      exact mergeBlocks_selfC blocks cfg.constraints bs1 selfC1 hm

/-- The scheduler configuration of the claim C5 demonstration: one
non-altitude global constraint. -/
def cfgC5 : SchedulerConfig :=
  { constraints := some [{ isAlt := false, eval := fun _ _ => 0 }] }

/-- A block with no per-block constraints, for the claim C5
demonstration. -/
def blkC5 : Block := mkObservingBlock 0 600 1 [] none

/-- Counterexample to claim C5 as stated: running the sequential
scheduler on a block with no per-block constraints grows the
scheduler's caller-supplied constraint list from one to two entries
(the default altitude constraint is appended through the
`_all_constraints` alias), so the configuration's constraint list is
not unchanged by the run. -/
theorem C5_constraints_not_preserved_counterexample :
    ((seq_make_schedule cfgC5 3 [blkC5] (Schedule.init 0 10)).toOption.map
      (fun r => (r.2.getD []).length)) = some 2 ∧
    (cfgC5.constraints.getD []).length = 1 ∧ (2 : ℕ) ≠ 1 := by
  refine ⟨?_, rfl, by decide⟩
  with_unfolding_all rfl

/-! ### Claim C6: how sequential runs end -/

/-- Scheduler configuration for the claim C6 counterexample: one
always-satisfied altitude-type constraint. -/
def cfgC6 : SchedulerConfig :=
  { constraints := some [{ isAlt := true, eval := fun _ _ => 1 }] }

/-- A candidate block longer than the whole horizon. -/
def blkC6 : Block := mkObservingBlock 0 7200 1 [] none

/-- Counterexample to claim C6 as stated: a remaining candidate whose
constraints score 1 everywhere but whose 7200 s duration exceeds the
3600 s horizon is selected (fitness is positive) and then
`insert_slot` raises `'longer block than slot'` — the run errors
instead of leaving the candidate unscheduled. -/
theorem C6_unplaceable_candidate_raises_counterexample :
    seq_make_schedule cfgC6 2 [blkC6] (Schedule.init 0 3600) =
      .error "longer block than slot" := by
  with_unfolding_all rfl

/-- Claim C6 (amended): whenever the sequential loop returns normally
it does so only through its terminal condition — the candidate pool is
empty or the clock has reached the horizon end — and the remaining
candidates are simply the leftover pool (a sublist of the input, left
unscheduled); however, a positive-fitness candidate that does not fit
its containing slot makes the run raise instead (see the
counterexample). -/
theorem C6_sequential_terminal_condition (cfg : SchedulerConfig) :
    ∀ (fuel : ℕ) (blocks : List Block) (t : ℚ) (sched : Schedule)
      (bs2 : List Block) (t2 : ℚ) (s : Schedule),
      seqLoop cfg fuel blocks t sched = .ok (bs2, t2, s) →
      (bs2 = [] ∨ ¬ t2 < s.endTime) ∧ s.endTime = sched.endTime ∧
        bs2.Sublist blocks := by
  intro fuel
  induction fuel with
  | zero =>
    intro blocks t sched bs2 t2 s h
    exact Except.noConfusion h
  | succ fuel ih =>
    intro blocks t sched bs2 t2 s h
    unfold seqLoop at h
    split at h
    · rename_i hguard
      injection h with h'
      injection h' with h1 hrest
      injection hrest with h2 h3
      subst h1
      subst h2
      subst h3
      refine ⟨?_, rfl, List.Sublist.refl _⟩
      rcases hguard with hempty | hstop
      · exact Or.inl (List.isEmpty_iff.mp hempty)
      · exact Or.inr hstop
    · cases hcand : seqCandidates cfg sched t blocks with
      | error e => rw [hcand] at h; exact Except.noConfusion h
      | ok pairs =>
        rw [hcand] at h
        dsimp only at h
        split at h
        · exact ih _ _ _ _ _ _ h
        · -- winning branch: transition handling then placement
          rename_i hnz
          split at h
          · exact Except.noConfusion h
          · rename_i p t1 sched1 hstep
            -- step1 succeeded; analyze the placement
            cases hplace : seqPlaceStep blocks
                (argmax (List.map (fun x => x.2) pairs))
                ((List.map (fun x => x.2) pairs).getD
                  (argmax (List.map (fun x => x.2) pairs)) 0) t1 sched1 with
            | error e => rw [hplace] at h; exact Except.noConfusion h
            | ok q =>
              rw [hplace] at h
              obtain ⟨blocks2, t2', sched2⟩ := q
              dsimp only at h
              obtain ⟨g1, g2, g3⟩ := ih _ _ _ _ _ _ h
              -- endTime bookkeeping through the two insertions
              have hend1 : sched1.endTime = sched.endTime := by
                cases htr : (pairs.getD
                    (argmax (List.map (fun x => x.2) pairs)) (none, 0)).1 with
                | none =>
                  rw [htr] at hstep
                  dsimp only at hstep
                  injection hstep with hstep'
                  injection hstep' with ha hb
                  rw [← hb]
                | some tr =>
                  rw [htr] at hstep
                  dsimp only at hstep
                  cases hts : tr.startTime with
                  | none =>
                    rw [hts] at hstep
                    exact Except.noConfusion hstep
                  | some ts =>
                    rw [hts] at hstep
                    dsimp only at hstep
                    cases hins : sched.insert_slot ts tr with
                    | error e =>
                      rw [hins] at hstep
                      exact Except.noConfusion hstep
                    | ok sx =>
                      rw [hins] at hstep
                      injection hstep with hstep'
                      injection hstep' with ha hb
                      rw [← hb]
                      exact (insert_slot_hor_eq hins).2
              have hend2 : sched2.endTime = sched1.endTime := by
                unfold seqPlaceStep at hplace
                dsimp only at hplace
                cases hins : sched1.insert_slot t1
                    (placedBlock (blocks.getD
                      (argmax (List.map (fun x => x.2) pairs)) default) t1
                      ((List.map (fun x => x.2) pairs).getD
                        (argmax (List.map (fun x => x.2) pairs)) 0)) with
                | error e =>
                    rw [hins] at hplace
                    exact Except.noConfusion hplace
                | ok sy =>
                    rw [hins] at hplace
                    injection hplace with hplace'
                    injection hplace' with ha hb
                    injection hb with hb1 hb2
                    rw [← hb2]
                    exact (insert_slot_hor_eq hins).2
              have hblocks2 : blocks2.Sublist blocks := by
                unfold seqPlaceStep at hplace
                dsimp only at hplace
                cases hins : sched1.insert_slot t1
                    (placedBlock (blocks.getD
                      (argmax (List.map (fun x => x.2) pairs)) default) t1
                      ((List.map (fun x => x.2) pairs).getD
                        (argmax (List.map (fun x => x.2) pairs)) 0)) with
                | error e =>
                    rw [hins] at hplace
                    exact Except.noConfusion hplace
                | ok sy =>
                    rw [hins] at hplace
                    injection hplace with hplace'
                    injection hplace' with ha hb
                    injection hb with hb1 hb2
                    rw [← ha]
                    exact List.eraseIdx_sublist blocks _
              exact ⟨g1, g2.trans (hend2.trans hend1), g3.trans hblocks2⟩

/-- Scheduler configuration for the claim C6 witness. -/
def cfgC6w : SchedulerConfig :=
  { constraints := some [{ isAlt := true, eval := fun _ _ => 1 }] }

/-- Witness for the amended claim C6: a 600 s block scheduled in a
3600 s horizon; the loop exits with an empty pool. -/
theorem C6_sequential_terminal_condition_witness :
    (((seqLoop cfgC6w 3 [mkObservingBlock 0 600 1 []
          (some [{ isAlt := true, eval := fun _ _ => 1 }])] 0
        (Schedule.init 0 3600)).toOption.getD ([], 0, Schedule.init 0 0)).1
        = [] ∨
      ¬ ((seqLoop cfgC6w 3 [mkObservingBlock 0 600 1 []
          (some [{ isAlt := true, eval := fun _ _ => 1 }])] 0
        (Schedule.init 0 3600)).toOption.getD ([], 0, Schedule.init 0 0)).2.1
        < ((seqLoop cfgC6w 3 [mkObservingBlock 0 600 1 []
          (some [{ isAlt := true, eval := fun _ _ => 1 }])] 0
        (Schedule.init 0 3600)).toOption.getD
          ([], 0, Schedule.init 0 0)).2.2.endTime) ∧
    ((seqLoop cfgC6w 3 [mkObservingBlock 0 600 1 []
        (some [{ isAlt := true, eval := fun _ _ => 1 }])] 0
      (Schedule.init 0 3600)).toOption.getD
        ([], 0, Schedule.init 0 0)).2.2.endTime =
      (Schedule.init 0 3600).endTime ∧
    (((seqLoop cfgC6w 3 [mkObservingBlock 0 600 1 []
        (some [{ isAlt := true, eval := fun _ _ => 1 }])] 0
      (Schedule.init 0 3600)).toOption.getD
        ([], 0, Schedule.init 0 0)).1).Sublist
      [mkObservingBlock 0 600 1 []
        (some [{ isAlt := true, eval := fun _ _ => 1 }])] :=
  C6_sequential_terminal_condition cfgC6w 3 _ 0 (Schedule.init 0 3600) _ _ _
    (by with_unfolding_all rfl)

/-! ### Claim C3: one iteration of the sequential loop -/

/-- The claim's fitness formula, stated as written: the product of the
block's effective constraints at "transition start, block midpoint,
block end" — the transition starts at `current_time`, the block runs
from `current_time + transition_time`.  (The source instead probes at
the block's start, i.e. the transition's end; see the
counterexample.) -/
def specFitnessC3 (b : Block) (current_time transition_time : ℚ) : ℚ :=
  blockFitness b
    [current_time,
     current_time + transition_time + b.duration / 2,
     current_time + transition_time + b.duration]

theorem map_snd_zipWith_fst {α β γ : Type} (g : α → β → γ) (f : α → β)
    (l : List α) :
    (l.map (fun b => (f b, g b (f b)))).map Prod.snd =
      List.zipWith g l ((l.map (fun b => (f b, g b (f b)))).map Prod.fst) := by
  induction l with
  | nil => simp
  | cons x xs ih => simp [ih]

/-- Claim C3 (amended): in one iteration of
`SequentialScheduler._make_schedule` with candidates evaluated, (a)
every block's scalar fitness is the product of its effective
constraints at the three probe instants `current_time +
transition_time + [0, duration/2, duration]` — the block's start (the
transition's *end*), midpoint and end; (b) if the maximum fitness is
exactly zero, `current_time` advances by the gap time and no block is
placed; (c) otherwise, when a transition was computed (the schedule
already holds an observing block) it is inserted — zero-duration
transitions included — the clock advances past it, and the winning
block is placed there with its fitness recorded, leaving the pool
without it. -/
theorem C3_sequential_iteration (cfg : SchedulerConfig) (fuel : ℕ)
    (blocks : List Block) (t : ℚ) (sched : Schedule)
    (pairs : List (Option Block × ℚ)) (tr : Block) (ts : ℚ)
    (sched1 : Schedule)
    (hne : blocks.isEmpty = false) (hlt : t < sched.endTime)
    (hcand : seqCandidates cfg sched t blocks = .ok pairs)
    (htr : (pairs.getD (argmax (pairs.map (·.2))) (none, 0)).1 = some tr)
    (hts : tr.startTime = some ts)
    (hins : sched.insert_slot ts tr = .ok sched1) :
    pairs.map (·.2) =
      List.zipWith
        (fun b (p : Option Block) => blockFitness b (probeTimes t
          (match p with | none => 0 | some trb => trb.duration) b.duration))
        blocks (pairs.map (·.1)) ∧
    ((pairs.map (·.2)).getD (argmax (pairs.map (·.2))) 0 = 0 →
      seqLoop cfg (fuel + 1) blocks t sched =
        seqLoop cfg fuel blocks (t + cfg.gap_time) sched) ∧
    ((pairs.map (·.2)).getD (argmax (pairs.map (·.2))) 0 ≠ 0 →
      seqLoop cfg (fuel + 1) blocks t sched =
        match seqPlaceStep blocks (argmax (pairs.map (·.2)))
          ((pairs.map (·.2)).getD (argmax (pairs.map (·.2))) 0)
          (t + tr.duration) sched1 with
        | .error e => .error e
        | .ok (b2, t2, s2) => seqLoop cfg fuel b2 t2 s2) := by
  have hguard : ¬ (blocks.isEmpty = true ∨ ¬ t < sched.endTime) := by
    push_neg
    exact ⟨by simp [hne], hlt⟩
  refine ⟨?_, ?_, ?_⟩
  · -- the fitness formula, per structure of `seqCandidates`
    unfold seqCandidates at hcand
    cases hobs : sched.observing_blocks.getLast? with
    | none =>
      rw [hobs] at hcand
      injection hcand with hq
      subst hq
      exact map_snd_zipWith_fst
        (fun b (p : Option Block) => blockFitness b (probeTimes t
          (match p with | none => 0 | some trb => trb.duration) b.duration))
        (fun _ => none) blocks
    | some ob =>
      rw [hobs] at hcand
      cases htrn : cfg.transitioner with
      | none => rw [htrn] at hcand; exact Except.noConfusion hcand
      | some trn =>
        rw [htrn] at hcand
        injection hcand with hq
        subst hq
        exact map_snd_zipWith_fst
          (fun b (p : Option Block) => blockFitness b (probeTimes t
            (match p with | none => 0 | some trb => trb.duration) b.duration))
          (fun b => some (trn.call (cfg.sep ob.target b.target t) ob b t))
          blocks
  · intro hzero
    rw [seqLoop, if_neg hguard, hcand]
    dsimp only
    rw [if_pos hzero]
  · intro hnz
    rw [seqLoop, if_neg hguard, hcand]
    dsimp only
    rw [if_neg hnz, htr]
    dsimp only
    rw [hts]
    dsimp only
    rw [hins]

/-- Scheduler configuration of the claim C3 demonstration: slew rate
1°/s, separation fixed at 60°, empty global constraint list. -/
def cfgC3 : SchedulerConfig :=
  { constraints := some [],
    transitioner := some { slew_rate := some 1,
                           instrument_reconfig_times := none },
    sep := fun _ _ _ => 60 }

/-- First demonstration block: always-feasible, 100 s. -/
def blkA3 : Block :=
  mkObservingBlock 0 100 1 [] (some [{ isAlt := true, eval := fun _ _ => 1 }])

/-- Second demonstration block: score equal to the probe time, 80 s. -/
def blkB3 : Block :=
  mkObservingBlock 1 80 2 [] (some [{ isAlt := true, eval := fun _ t => t }])

/-- Counterexample to claim C3 as stated: in the demonstration run the
second block is scheduled at `current_time = 100` behind a 60 s
transition; the code records fitness `160·200·240 = 7680000` (probes
at the block's start/mid/end), while the claim's probe instants —
transition start (= 100), midpoint, end — give `100·200·240 =
4800000`.  The recorded realized score is not the claimed product. -/
theorem C3_probe_instants_counterexample :
    ((seq_make_schedule cfgC3 4 [blkA3, blkB3]
        (Schedule.init 0 1000)).toOption.map
      (fun r => (r.1.observing_blocks.getD 1 default).constraintsValue)) =
      some 7680000 ∧
    ((seq_make_schedule cfgC3 4 [blkA3, blkB3]
        (Schedule.init 0 1000)).toOption.map
      (fun r => specFitnessC3 (r.1.observing_blocks.getD 1 default)
        100 60)) = some 4800000 ∧
    (7680000 : ℚ) ≠ 4800000 := by
  refine ⟨?_, ?_, by norm_num⟩
  · with_unfolding_all rfl
  · with_unfolding_all rfl

/-- Observing block already sitting in the schedule of the C3 witness. -/
def blkObW3 : Block :=
  mkObservingBlock 0 100 1 [] none

/-- Candidate block of the C3 witness (effective constraint: score
equal to the probe time). -/
def blkW3 : Block :=
  { mkObservingBlock 1 80 2 [] none with
      allConstraints := [{ isAlt := true, eval := fun _ t => t }] }

/-- Mid-run schedule of the C3 witness: one placed observing block and
the open remainder of the horizon. -/
def schedW3 : Schedule :=
  { startTime := 0, endTime := 1000,
    slots :=
      [{ start := 0, stop := 100, occupied := true, middle := true,
         block := some blkObW3 },
       { start := 100, stop := 1000 }] }

/-- Scheduler configuration of the C3 witness. -/
def cfgW3 : SchedulerConfig :=
  { constraints := some [],
    transitioner := some { slew_rate := some 1,
                           instrument_reconfig_times := none },
    sep := fun _ _ _ => 60 }

/-- The candidate pairs the C3 witness iteration computes. -/
def pairsW3 : List (Option Block × ℚ) :=
  (seqCandidates cfgW3 schedW3 100 [blkW3]).toOption.getD []

/-- The transition block of the winning C3 witness candidate. -/
def trW3 : Block :=
  ((pairsW3.getD (argmax (pairsW3.map (·.2))) (none, 0)).1).getD default

/-- The C3 witness schedule after the transition block is inserted. -/
def schedW13 : Schedule :=
  (schedW3.insert_slot 100 trW3).toOption.getD (Schedule.init 0 0)

theorem C3_sequential_iteration_witness :
    List.map (·.2) pairsW3 =
      List.zipWith
        (fun b (p : Option Block) => blockFitness b (probeTimes 100
          (match p with | none => 0 | some trb => trb.duration) b.duration))
        [blkW3] (pairsW3.map (·.1)) ∧
    ((pairsW3.map (·.2)).getD (argmax (pairsW3.map (·.2))) 0 = 0 →
      seqLoop cfgW3 (5 + 1) [blkW3] 100 schedW3 =
        seqLoop cfgW3 5 [blkW3] (100 + cfgW3.gap_time) schedW3) ∧
    ((pairsW3.map (·.2)).getD (argmax (pairsW3.map (·.2))) 0 ≠ 0 →
      seqLoop cfgW3 (5 + 1) [blkW3] 100 schedW3 =
        match seqPlaceStep [blkW3] (argmax (pairsW3.map (·.2)))
          ((pairsW3.map (·.2)).getD (argmax (pairsW3.map (·.2))) 0)
          (100 + trW3.duration) schedW13 with
        | .error e => .error e
        | .ok (b2, t2, s2) => seqLoop cfgW3 5 b2 t2 s2) :=
  C3_sequential_iteration cfgW3 5 [blkW3] 100 schedW3 pairsW3 trW3 100 schedW13
    (by with_unfolding_all rfl) (by with_unfolding_all decide)
    (by with_unfolding_all rfl) (by with_unfolding_all rfl)
    (by with_unfolding_all rfl) (by with_unfolding_all rfl)

/-! ### PriorityScheduler (`PriorityScheduler._make_schedule`, claim C2) -/

/-- Modelled from the spec: "treat the score row as a sliding window of
that width" — the list of all contiguous windows of width `n` over the
row (the `stride_array` helper lives in `astroplan.utils`, outside this
repository's sources). -/
def stride_array (l : List ℚ) (n : ℕ) : List (List ℚ) :=
  (List.range (l.length + 1 - n)).map (fun k => (l.drop k).take n)

/-- `np.argsort(_block_priorities)`: the indices `0..n-1` reordered so
that the priorities they point at are ascending. -/
def argsortAsc (ps : List ℚ) : List ℕ :=
  (List.range ps.length).mergeSort
    (fun i j => decide (ps.getD i 0 ≤ ps.getD j 0))

/-- `constraint_scores[is_open_time == False] = 0`: the block's score
row with every closed-mask cell zeroed. -/
def maskedRow (row : List ℚ) (mask : List Bool) : List ℚ :=
  List.zipWith (fun s o => if o then s else 0) row mask

/-- `np.all(_strided_scores > 1e-5, axis=1)` (the float literal `1e-5`
is the rational `1/100000` in this embedding). -/
def goodWindows (w : List (List ℚ)) : List Bool :=
  w.map (fun win => win.all (fun x => decide ((1 : ℚ)/100000 < x)))

/-- `sum_scores`: zero everywhere, overwritten by the window sum at
every good window. -/
def sumScores (w : List (List ℚ)) : List ℚ :=
  w.map (fun win =>
    if win.all (fun x => decide ((1 : ℚ)/100000 < x)) then win.sum else 0)

/-- Python `max` over a list: `ValueError` when it is empty. -/
def pyMax : List ℚ → Except String ℚ
  | [] => .error "ValueError: max arg is an empty sequence"
  | x :: xs => .ok (xs.foldl max x)

/-- `value.values()` of one reconfiguration table: the per-transition
entries together with the `'default'` entry when present. -/
def ReconfigTable.values (t : ReconfigTable) : List ℚ :=
  t.entries.map (·.2) ++
    (match t.default with | some d => [d] | none => [])

/-- `max_config_time`: the sum over the tables of each table's maximum
value; `None` and the empty mapping are falsy and give `0`. -/
def maxConfigTime (tr : Transitioner) : Except String ℚ :=
  match tr.instrument_reconfig_times with
  | none => .ok 0
  | some [] => .ok 0
  | some tables =>
    tables.foldl (fun acc kv =>
      match acc with
      | .error e => .error e
      | .ok s =>
        match pyMax kv.2.values with
        | .error e => .error e
        | .ok m => .ok (s + m)) (.ok 0)

/-- `buffer_time`: `160*u.deg/slew_rate + max_config_time` when the
slew rate is truthy (present and nonzero), else `max_config_time`. -/
def bufferTime (tr : Transitioner) : Except String ℚ :=
  match maxConfigTime tr with
  | .error e => .error e
  | .ok mct =>
    match tr.slew_rate with
    | some r => if r ≠ 0 then .ok (160 / r + mct) else .ok mct
    | none => .ok mct

/-- `is_open_time[a:b] = False`: close a half-open index range of the
mask (out-of-range parts of the range are clamped, as Python slice
assignment does). -/
def maskSetRange (m : List Bool) (a b : ℕ) : List Bool :=
  m.mapIdx (fun k v => if a ≤ k ∧ k < b then false else v)

/-- Python list indexing with negative-index wrap-around. -/
def pyGet {α : Type} (l : List α) (i : Int) : Option α :=
  if 0 ≤ i then l[i.toNat]?
  else if 0 ≤ i + l.length then l[(i + l.length).toNat]?
  else none

/-- The per-run mutable state of `PriorityScheduler._make_schedule`:
the schedule, the `is_open_time` mask and the `unscheduled_blocks`
list. -/
structure PriorityState where
  sched : Schedule
  mask : List Bool
  unscheduled : List Block

/-- The `if slots_before:` branch of `PriorityScheduler._make_schedule`
(lines 676–707): when the slot before the chosen one holds an
`ObservingBlock`, a fresh transition from it is built, rounded to whole
grid cells and inserted (the chosen start is first collapsed onto the
transition's end when it falls inside it or within one gap time of the
end); when it holds a `TransitionBlock`, that slot is resized in place
via `change_slot_block` with a transition recomputed from the
observing block two slots back.  Returns the updated schedule, mask,
(possibly shifted) start time, start index and slot index.  Reading
`end_idx` off a block that was never scheduled by this run is an
`AttributeError`; a transition without a start time makes the shift
comparison a `TypeError`.  `beforeObs` is the `isinstance(...,
ObservingBlock)` half, `beforeTrans` the `TransitionBlock` half and
`priorityBefore` the dispatching shell; `transCells` is
`times_indices = np.int(np.ceil(float(tb.duration / time_resolution)))`
for the freshly built transition. -/
def transCells (cfg : SchedulerConfig) (tr : Transitioner)
    (old b1 : Block) (t : ℚ) : ℕ :=
  (⌈(tr.call (cfg.sep old.target b1.target t) old b1 t).duration /
    cfg.time_resolution⌉).toNat

/-- The transition with `tb.duration = times_indices * time_resolution`
written back (`times_indices = transCells ...`). -/
def transRounded (cfg : SchedulerConfig) (tr : Transitioner)
    (old b1 : Block) (t : ℚ) : Block :=
  { tr.call (cfg.sep old.target b1.target t) old b1 t with
      duration := (transCells cfg tr old b1 t : ℚ) * cfg.time_resolution }

/-- The collapse-forward test of the neighbour branches:
`new_start_time - tb.start_time < tb.duration or
abs(new_start_time - tb.end_time) < self.gap_time`. -/
def shiftTest (gap_time new_start_time tbStart : ℚ) (tb1 : Block) : Prop :=
  new_start_time - tbStart < tb1.duration ∨
    |new_start_time - (tbStart + tb1.duration)| < gap_time

instance (g n s : ℚ) (tb1 : Block) : Decidable (shiftTest g n s tb1) := by
  unfold shiftTest
  infer_instance

def beforeObs (cfg : SchedulerConfig) (tr : Transitioner) (b1 : Block)
    (st1 : Schedule) (mask : List Bool) (new_start_time : ℚ)
    (start_time_idx slot_index : ℕ) (pstop : ℚ) (pb : Block) :
    Except String (Schedule × List Bool × ℚ × ℕ × ℕ × Option (ℕ × ℕ)) :=
  match pb.endIdx with
  | none => .error "AttributeError: end_idx"
  | some start_idx =>
    match (transRounded cfg tr pb b1 pstop).startTime with
    | none => .error "TypeError: unsupported operand type for -"
    | some tbStart =>
      match st1.insert_slot tbStart (transRounded cfg tr pb b1 pstop) with
      | .error e => .error e
      | .ok sch2 =>
        .ok (sch2, maskSetRange mask start_idx
            (transCells cfg tr pb b1 pstop + start_idx),
          if shiftTest cfg.gap_time new_start_time tbStart
              (transRounded cfg tr pb b1 pstop) then
            tbStart + (transRounded cfg tr pb b1 pstop).duration
          else new_start_time,
          if shiftTest cfg.gap_time new_start_time tbStart
              (transRounded cfg tr pb b1 pstop) then
            transCells cfg tr pb b1 pstop + start_idx
          else start_time_idx,
          slot_index + 1,
          some (start_idx, transCells cfg tr pb b1 pstop + start_idx))

/-- The `elif isinstance(..., TransitionBlock)` half of the
`slots_before` branch: resize the transition slot in place via
`change_slot_block` with a transition recomputed from the block two
slots back, then apply the same collapse-forward test. -/
def beforeTrans (cfg : SchedulerConfig) (tr : Transitioner) (b1 : Block)
    (st1 : Schedule) (mask : List Bool) (new_start_time : ℚ)
    (start_time_idx slot_index : ℕ) (pstop : ℚ) (pb2 : Block) :
    Except String (Schedule × List Bool × ℚ × ℕ × ℕ × Option (ℕ × ℕ)) :=
  match pb2.endIdx with
  | none => .error "AttributeError: end_idx"
  | some start_idx =>
    match st1.change_slot_block (slot_index - 1)
        (transRounded cfg tr pb2 b1 pstop) with
    | (_, some e) => .error e
    | (sch2, none) =>
      match (transRounded cfg tr pb2 b1 pstop).startTime with
      | none => .error "TypeError: unsupported operand type for -"
      | some tbStart =>
        .ok (sch2, maskSetRange mask start_idx
            (transCells cfg tr pb2 b1 pstop + start_idx),
          if shiftTest cfg.gap_time new_start_time tbStart
              (transRounded cfg tr pb2 b1 pstop) then
            tbStart + (transRounded cfg tr pb2 b1 pstop).duration
          else new_start_time,
          if shiftTest cfg.gap_time new_start_time tbStart
              (transRounded cfg tr pb2 b1 pstop) then
            transCells cfg tr pb2 b1 pstop + start_idx
          else start_time_idx,
          slot_index,
          some (start_idx, transCells cfg tr pb2 b1 pstop + start_idx))

def priorityBefore (cfg : SchedulerConfig) (tr : Transitioner) (b1 : Block)
    (st1 : Schedule) (mask : List Bool) (new_start_time : ℚ)
    (start_time_idx slot_index : ℕ) :
    Except String (Schedule × List Bool × ℚ × ℕ × ℕ × Option (ℕ × ℕ)) :=
  if slot_index = 0 then
    .ok (st1, mask, new_start_time, start_time_idx, slot_index, none)
  else
    match st1.slots[slot_index - 1]? with
    | none => .error "IndexError: list index out of range"
    | some prev =>
      match prev.block with
      | none =>
        .ok (st1, mask, new_start_time, start_time_idx, slot_index, none)
      | some pb =>
        if pb.kind = BlockKind.obs then
          beforeObs cfg tr b1 st1 mask new_start_time start_time_idx
            slot_index prev.stop pb
        else
          match pyGet st1.slots ((slot_index : Int) - 2) with
          | none => .error "IndexError: list index out of range"
          | some p2 =>
            match p2.block with
            | none => .error "AttributeError: NoneType has no target"
            | some pb2 =>
              beforeTrans cfg tr b1 st1 mask new_start_time
                start_time_idx slot_index p2.stop pb2

/-- The `if slots_after:` branch (lines 709–719): when the slot after
the (possibly incremented) slot index holds an `ObservingBlock`, a
transition from the new block to it is built at the new block's end,
rounded to whole grid cells, inserted, and its grid cells are closed.
`hasAfter` is `slots_after`'s emptiness test, taken on the slot list
as it was when the slot index was located. -/
def afterObs (cfg : SchedulerConfig) (tr : Transitioner) (b1 nb : Block)
    (sch : Schedule) (mask : List Bool) (t0 : ℚ) (end_time_idx : ℕ) :
    Except String (Schedule × List Bool × Option (ℕ × ℕ)) :=
  match (transRounded cfg tr b1 nb t0).startTime with
  | none => .error "TypeError: comparison with NoneType"
  | some tbStart =>
    match sch.insert_slot tbStart (transRounded cfg tr b1 nb t0) with
    | .error e => .error e
    | .ok sch2 =>
      .ok (sch2, maskSetRange mask end_time_idx
        (end_time_idx + transCells cfg tr b1 nb t0),
        some (end_time_idx, end_time_idx + transCells cfg tr b1 nb t0))

def priorityAfter (cfg : SchedulerConfig) (tr : Transitioner) (b1 : Block)
    (sch : Schedule) (mask : List Bool) (new_start_time : ℚ)
    (end_time_idx slot_index : ℕ) (hasAfter : Bool) :
    Except String (Schedule × List Bool × Option (ℕ × ℕ)) :=
  if hasAfter = false then .ok (sch, mask, none)
  else
    match sch.slots[slot_index + 1]? with
    | none => .error "IndexError: list index out of range"
    | some nxt =>
      match nxt.block with
      | none => .ok (sch, mask, none)
      | some nb =>
        if nb.kind = BlockKind.obs then
          afterObs cfg tr b1 nb sch mask (new_start_time + b1.duration)
            end_time_idx
        else .ok (sch, mask, none)

/-- One body of the `for i in sorted_indices:` loop of
`PriorityScheduler._make_schedule` (lines 617–726): zero the score row
on closed cells, build the sliding windows of width
`ceil((duration + buffer)/resolution)`, disqualify any window with a
negligible cell, pick the window with the greatest sum (first maximum)
— or record the block as unscheduled when the row is all zero or no
window is fully feasible; then round the block's duration up to whole
grid cells, locate the slot containing the chosen start (first slot,
1-second tolerance), run the neighbour-transition branches, insert the
block at the (possibly shifted) start and close its grid cells.
Besides the new state, the grid index ranges closed for the placed
block and for the before/after transitions are returned as
observables (`none` when that part did not run). -/
def priorityStep (cfg : SchedulerConfig) (tr : Transitioner)
    (times : List ℚ) (row : List ℚ) (b : Block) (st : PriorityState) :
    Except String (PriorityState × Option (ℕ × ℕ) × Option (ℕ × ℕ) ×
      Option (ℕ × ℕ)) :=
  match bufferTime tr with
  | .error e => .error e
  | .ok buffer_time =>
    let constraint_scores := maskedRow row st.mask
    let stride_by :=
      (⌈(b.duration + buffer_time) / cfg.time_resolution⌉).toNat
    let strided := stride_array constraint_scores stride_by
    if constraint_scores.all (fun x => decide (x = 0)) ||
        (goodWindows strided).all (fun x => ! x) then
      .ok ({ st with unscheduled := st.unscheduled ++ [b] },
        none, none, none)
    else
      let sums := sumScores strided
      let best_time_idx := argmax sums
      let new_start_time := times.getD best_time_idx 0
      let duration_indices := (⌈b.duration / cfg.time_resolution⌉).toNat
      let b1 := { b with
        duration := (duration_indices : ℚ) * cfg.time_resolution }
      match st.sched.slots.findIdx? (fun s =>
          decide (s.start < new_start_time + 1) &&
            decide (new_start_time + 1 < s.stop)) with
      | none => .error "IndexError: list index out of range"
      | some slot_index =>
        let hasAfter := decide (slot_index + 1 < st.sched.slots.length)
        match priorityBefore cfg tr b1 st.sched st.mask new_start_time
            best_time_idx slot_index with
        | .error e => .error e
        | .ok (sch1, mask1, ns1, sti1, sidx1, gb1) =>
          let end_time_idx := duration_indices + sti1
          match priorityAfter cfg tr b1 sch1 mask1 ns1 end_time_idx
              sidx1 hasAfter with
          | .error e => .error e
          | .ok (sch2, mask2, ga1) =>
            let b2 := { b1 with
              constraints := some b1.allConstraints,
              endIdx := some end_time_idx }
            match sch2.insert_slot ns1 b2 with
            | .error e => .error e
            | .ok sch3 =>
              .ok ({ sched := sch3,
                     mask := maskSetRange mask2 sti1 end_time_idx,
                     unscheduled := st.unscheduled },
                some (sti1, end_time_idx), gb1, ga1)

/-- The `for i in sorted_indices:` loop; touching
`self.transitioner.instrument_reconfig_times` with no transitioner
configured is an `AttributeError`. -/
def priorityLoop (cfg : SchedulerConfig) (trOpt : Option Transitioner)
    (times : List ℚ) (scores : List (List ℚ)) (blocks : List Block) :
    List ℕ → PriorityState → Except String PriorityState
  | [], st => .ok st
  | i :: rest, st =>
    match trOpt with
    | none => .error "AttributeError: NoneType has no reconfig times"
    | some tr =>
      match priorityStep cfg tr times (scores.getD i [])
          (blocks.getD i default) st with
      | .error e => .error e
      | .ok (st2, _, _, _) =>
        priorityLoop cfg trOpt times scores blocks rest st2

/-- The tail of `_make_schedule`: the loop result paired with the
final `self.constraints` (the run returns `self.schedule`; the
constraint list is returned as a ghost observable). -/
def priorityFinish (selfC : Option (List Constraint))
    (r : Except String PriorityState) :
    Except String (PriorityState × Option (List Constraint)) :=
  match r with
  | .error e => .error e
  | .ok st => .ok (st, selfC)

/-- `PriorityScheduler._make_schedule(blocks)`: merge the constraint
sets (the same aliasing loop as the sequential strategy), build the
time grid, the all-open mask and the score array, sort the block
indices ascending by priority and run the placement loop.  A `None`
constraint list reaching the `Scorer`'s global loop is a `TypeError`
(`for constraint in None`).  The final state and the (possibly
mutated) scheduler constraint list are returned. -/
def priority_make_schedule (cfg : SchedulerConfig) (blocks : List Block)
    (sched : Schedule) :
    Except String (PriorityState × Option (List Constraint)) :=
  match mergeBlocks cfg cfg.constraints blocks with
  | .error e => .error e
  | .ok (blocks2, selfC2) =>
    let times := time_grid_from_range sched.startTime sched.endTime
      cfg.time_resolution
    let mask := times.map (fun _ => true)
    match selfC2 with
    | none => .error "TypeError: NoneType object is not iterable"
    | some gcs =>
      let sarr := (Scorer.mk blocks2 sched gcs).create_score_array
        cfg.time_resolution
      let sortedIdx := argsortAsc (blocks2.map (·.priority))
      priorityFinish selfC2 (priorityLoop cfg cfg.transitioner times sarr
        blocks2 sortedIdx
        { sched := sched, mask := mask, unscheduled := [] })

theorem maskSetRange_mono (m : List Bool) (a b k : ℕ)
    (h : (maskSetRange m a b).getD k false = true) :
    m.getD k false = true := by
  by_cases hk : k < m.length
  · have hk2 : k < (maskSetRange m a b).length := by
      simpa [maskSetRange, List.length_mapIdx] using hk
    rw [List.getD_eq_getElem _ _ hk2] at h
    simp only [maskSetRange, List.getElem_mapIdx] at h
    rw [List.getD_eq_getElem _ _ hk]
    split at h
    · exact Bool.noConfusion h
    · exact h
  · rw [List.getD_eq_default _ _
      (by simpa [maskSetRange, List.length_mapIdx] using hk)] at h
    exact Bool.noConfusion h

theorem argmaxAux_spec (l : List ℚ) :
    ∀ (ys : List ℚ) (i bi : ℕ), l.drop i = ys → bi < l.length →
    (∀ j, j < i → l.getD j 0 ≤ l.getD bi 0) →
    argmaxAux ys bi (l.getD bi 0) i < l.length ∧
      ∀ j, j < l.length →
        l.getD j 0 ≤ l.getD (argmaxAux ys bi (l.getD bi 0) i) 0 := by
  intro ys
  induction ys with
  | nil =>
    intro i bi hdrop hbi hj
    have hlen : l.length ≤ i := by
      have h2 := congrArg List.length hdrop
      simp only [List.length_drop, List.length_nil] at h2
      omega
    exact ⟨hbi, fun j hj2 => hj j (lt_of_lt_of_le hj2 hlen)⟩
  | cons y ys2 ih =>
    intro i bi hdrop hbi hj
    have hi_lt : i < l.length := by
      by_contra hc
      push_neg at hc
      rw [List.drop_eq_nil_of_le hc] at hdrop
      exact List.noConfusion hdrop
    have hcons := List.drop_eq_getElem_cons hi_lt
    rw [hdrop] at hcons
    injection hcons with h1 h2
    have hy : y = l.getD i 0 := by
      rw [h1, List.getD_eq_getElem _ _ hi_lt]
    have hys2 : l.drop (i + 1) = ys2 := h2.symm
    rw [argmaxAux]
    split
    · rename_i hlt
      have hnew : ∀ j, j < i + 1 → l.getD j 0 ≤ l.getD i 0 := by
        intro j hj2
        rcases Nat.lt_succ_iff_lt_or_eq.mp hj2 with hj3 | hj3
        · refine le_trans (hj j hj3) ?_
          rw [hy] at hlt
          exact le_of_lt hlt
        · rw [hj3]
      have hrec := ih (i + 1) i hys2 hi_lt hnew
      rw [hy]
      exact hrec
    · rename_i hnlt
      push_neg at hnlt
      have hold : ∀ j, j < i + 1 → l.getD j 0 ≤ l.getD bi 0 := by
        intro j hj2
        rcases Nat.lt_succ_iff_lt_or_eq.mp hj2 with hj3 | hj3
        · exact hj j hj3
        · rw [hj3, ← hy]
          exact hnlt
      exact ih (i + 1) bi hys2 hbi hold

theorem argmax_spec (l : List ℚ) (h : l.length ≠ 0) :
    argmax l < l.length ∧
      ∀ j, j < l.length → l.getD j 0 ≤ l.getD (argmax l) 0 := by
  cases l with
  | nil => exact absurd rfl h
  | cons x xs =>
    have hspec := argmaxAux_spec (x :: xs) xs 1 0 (by simp) (by simp)
      (fun j hj => by
        have hj0 : j = 0 := by omega
        rw [hj0])
    rw [argmax]
    exact hspec

theorem sum_pos_of_forall_gt (l : List ℚ) (hne : l ≠ [])
    (h : ∀ x ∈ l, (1 : ℚ)/100000 < x) : 0 < l.sum := by
  induction l with
  | nil => exact absurd rfl hne
  | cons x xs ih =>
    rw [List.sum_cons]
    have hx : (0 : ℚ) < x :=
      lt_trans (by norm_num) (h x (List.mem_cons_self x xs))
    cases xs with
    | nil => simpa using hx
    | cons y ys =>
      have hs := ih (by simp) (fun z hz => h z (List.mem_cons_of_mem _ hz))
      linarith

theorem beforeObs_mask (cfg : SchedulerConfig) (tr : Transitioner)
    (b1 : Block) (st1 : Schedule) (mask : List Bool) (t : ℚ)
    (sti si : ℕ) (pstop : ℚ) (pb : Block) (sch1 : Schedule)
    (mask1 : List Bool) (ns1 : ℚ) (sti1 sidx1 : ℕ)
    (gb : Option (ℕ × ℕ))
    (h : beforeObs cfg tr b1 st1 mask t sti si pstop pb =
      .ok (sch1, mask1, ns1, sti1, sidx1, gb)) :
    ∀ k, mask1.getD k false = true → mask.getD k false = true := by
  revert h
  unfold beforeObs
  repeat' split
  all_goals intro h
  all_goals
    first
      | exact Except.noConfusion h
      | (simp only [Except.ok.injEq, Prod.mk.injEq] at h
         obtain ⟨-, h2, -, -, -, -⟩ := h
         intro k hk
         rw [← h2] at hk
         exact maskSetRange_mono _ _ _ _ hk)

theorem beforeTrans_mask (cfg : SchedulerConfig) (tr : Transitioner)
    (b1 : Block) (st1 : Schedule) (mask : List Bool) (t : ℚ)
    (sti si : ℕ) (pstop : ℚ) (pb2 : Block) (sch1 : Schedule)
    (mask1 : List Bool) (ns1 : ℚ) (sti1 sidx1 : ℕ)
    (gb : Option (ℕ × ℕ))
    (h : beforeTrans cfg tr b1 st1 mask t sti si pstop pb2 =
      .ok (sch1, mask1, ns1, sti1, sidx1, gb)) :
    ∀ k, mask1.getD k false = true → mask.getD k false = true := by
  revert h
  unfold beforeTrans
  repeat' split
  all_goals intro h
  all_goals
    first
      | exact Except.noConfusion h
      | (simp only [Except.ok.injEq, Prod.mk.injEq] at h
         obtain ⟨-, h2, -, -, -, -⟩ := h
         intro k hk
         rw [← h2] at hk
         exact maskSetRange_mono _ _ _ _ hk)

theorem priorityBefore_mask (cfg : SchedulerConfig) (tr : Transitioner)
    (b1 : Block) (st1 : Schedule) (mask : List Bool) (t : ℚ)
    (sti si : ℕ) (sch1 : Schedule) (mask1 : List Bool) (ns1 : ℚ)
    (sti1 sidx1 : ℕ) (gb : Option (ℕ × ℕ))
    (h : priorityBefore cfg tr b1 st1 mask t sti si =
      .ok (sch1, mask1, ns1, sti1, sidx1, gb)) :
    ∀ k, mask1.getD k false = true → mask.getD k false = true := by
  revert h
  unfold priorityBefore
  repeat' split
  all_goals intro h
  all_goals
    first
      | exact Except.noConfusion h
      | (simp only [Except.ok.injEq, Prod.mk.injEq] at h
         obtain ⟨-, h2, -, -, -, -⟩ := h
         intro k hk
         rw [← h2] at hk
         exact hk)
      | exact beforeObs_mask _ _ _ _ _ _ _ _ _ _ _ _ _ _ _ _ h
      | exact beforeTrans_mask _ _ _ _ _ _ _ _ _ _ _ _ _ _ _ _ h

theorem afterObs_mask (cfg : SchedulerConfig) (tr : Transitioner)
    (b1 nb : Block) (sch : Schedule) (mask : List Bool) (t0 : ℚ)
    (eti : ℕ) (sch2 : Schedule) (mask2 : List Bool)
    (ga : Option (ℕ × ℕ))
    (h : afterObs cfg tr b1 nb sch mask t0 eti = .ok (sch2, mask2, ga)) :
    ∀ k, mask2.getD k false = true → mask.getD k false = true := by
  revert h
  unfold afterObs
  repeat' split
  all_goals intro h
  all_goals
    first
      | exact Except.noConfusion h
      | (simp only [Except.ok.injEq, Prod.mk.injEq] at h
         obtain ⟨-, h2, -⟩ := h
         intro k hk
         rw [← h2] at hk
         exact maskSetRange_mono _ _ _ _ hk)

theorem priorityAfter_mask (cfg : SchedulerConfig) (tr : Transitioner)
    (b1 : Block) (sch : Schedule) (mask : List Bool) (t : ℚ)
    (eti si : ℕ) (ha : Bool) (sch2 : Schedule) (mask2 : List Bool)
    (ga : Option (ℕ × ℕ))
    (h : priorityAfter cfg tr b1 sch mask t eti si ha =
      .ok (sch2, mask2, ga)) :
    ∀ k, mask2.getD k false = true → mask.getD k false = true := by
  revert h
  unfold priorityAfter
  repeat' split
  all_goals intro h
  all_goals
    first
      | exact Except.noConfusion h
      | (simp only [Except.ok.injEq, Prod.mk.injEq] at h
         obtain ⟨-, h2, -⟩ := h
         intro k hk
         rw [← h2] at hk
         exact hk)
      | exact afterObs_mask _ _ _ _ _ _ _ _ _ _ _ h

theorem priorityStep_mask (cfg : SchedulerConfig) (tr : Transitioner)
    (times row : List ℚ) (b : Block) (st st2 : PriorityState)
    (gp gb ga : Option (ℕ × ℕ))
    (h : priorityStep cfg tr times row b st = .ok (st2, gp, gb, ga)) :
    ∀ k, st2.mask.getD k false = true → st.mask.getD k false = true := by
  revert h
  unfold priorityStep
  split
  · intro h
    exact Except.noConfusion h
  · dsimp only
    repeat' split
    all_goals intro h
    all_goals try exact Except.noConfusion h
    all_goals simp only [Except.ok.injEq, Prod.mk.injEq] at h
    all_goals obtain ⟨h2, -, -, -⟩ := h
    all_goals intro k hk
    all_goals rw [← h2] at hk
    all_goals dsimp only at hk
    · exact hk
    · have hk2 := maskSetRange_mono _ _ _ _ hk
      have hk3 := priorityAfter_mask _ _ _ _ _ _ _ _ _ _ _ _
        (by assumption) k hk2
      exact priorityBefore_mask _ _ _ _ _ _ _ _ _ _ _ _ _ _
        (by assumption) k hk3

theorem maskSetRange_closes (m : List Bool) (a b k : ℕ)
    (h1 : a ≤ k) (h2 : k < b) :
    (maskSetRange m a b).getD k false = false := by
  by_cases hk : k < m.length
  · have hk2 : k < (maskSetRange m a b).length := by
      simpa [maskSetRange, List.length_mapIdx] using hk
    rw [List.getD_eq_getElem _ _ hk2]
    simp only [maskSetRange, List.getElem_mapIdx]
    rw [if_pos ⟨h1, h2⟩]
  · rw [List.getD_eq_default _ _
      (by simpa [maskSetRange, List.length_mapIdx] using hk)]

theorem maskSetRange_false_mono (m : List Bool) (a b k : ℕ)
    (h : m.getD k false = false) :
    (maskSetRange m a b).getD k false = false := by
  by_cases hk : k < m.length
  · have hk2 : k < (maskSetRange m a b).length := by
      simpa [maskSetRange, List.length_mapIdx] using hk
    rw [List.getD_eq_getElem _ _ hk2]
    simp only [maskSetRange, List.getElem_mapIdx]
    rw [List.getD_eq_getElem _ _ hk] at h
    rw [h]
    split <;> rfl
  · rw [List.getD_eq_default _ _
      (by simpa [maskSetRange, List.length_mapIdx] using hk)]

theorem beforeObs_ghost (cfg : SchedulerConfig) (tr : Transitioner)
    (b1 : Block) (st1 : Schedule) (mask : List Bool) (t : ℚ)
    (sti si : ℕ) (pstop : ℚ) (pb : Block) (sch1 : Schedule)
    (mask1 : List Bool) (ns1 : ℚ) (sti1 sidx1 : ℕ)
    (gb : Option (ℕ × ℕ))
    (h : beforeObs cfg tr b1 st1 mask t sti si pstop pb =
      .ok (sch1, mask1, ns1, sti1, sidx1, gb)) :
    ∀ a b2 k, gb = some (a, b2) → a ≤ k → k < b2 →
      mask1.getD k false = false := by
  revert h
  unfold beforeObs
  repeat' split
  all_goals intro h
  all_goals
    first
      | exact Except.noConfusion h
      | (simp only [Except.ok.injEq, Prod.mk.injEq] at h
         obtain ⟨-, h2, -, -, -, h6⟩ := h
         intro a b2 k hg ha hb
         rw [← h6] at hg
         injection hg with hp
         injection hp with hpa hpb
         rw [← h2]
         exact maskSetRange_closes _ _ _ _ (by rw [hpa]; exact ha)
           (by rw [hpb]; exact hb))

theorem beforeTrans_ghost (cfg : SchedulerConfig) (tr : Transitioner)
    (b1 : Block) (st1 : Schedule) (mask : List Bool) (t : ℚ)
    (sti si : ℕ) (pstop : ℚ) (pb2 : Block) (sch1 : Schedule)
    (mask1 : List Bool) (ns1 : ℚ) (sti1 sidx1 : ℕ)
    (gb : Option (ℕ × ℕ))
    (h : beforeTrans cfg tr b1 st1 mask t sti si pstop pb2 =
      .ok (sch1, mask1, ns1, sti1, sidx1, gb)) :
    ∀ a b2 k, gb = some (a, b2) → a ≤ k → k < b2 →
      mask1.getD k false = false := by
  revert h
  unfold beforeTrans
  repeat' split
  all_goals intro h
  all_goals
    first
      | exact Except.noConfusion h
      | (simp only [Except.ok.injEq, Prod.mk.injEq] at h
         obtain ⟨-, h2, -, -, -, h6⟩ := h
         intro a b2 k hg ha hb
         rw [← h6] at hg
         injection hg with hp
         injection hp with hpa hpb
         rw [← h2]
         exact maskSetRange_closes _ _ _ _ (by rw [hpa]; exact ha)
           (by rw [hpb]; exact hb))

theorem priorityBefore_ghost (cfg : SchedulerConfig) (tr : Transitioner)
    (b1 : Block) (st1 : Schedule) (mask : List Bool) (t : ℚ)
    (sti si : ℕ) (sch1 : Schedule) (mask1 : List Bool) (ns1 : ℚ)
    (sti1 sidx1 : ℕ) (gb : Option (ℕ × ℕ))
    (h : priorityBefore cfg tr b1 st1 mask t sti si =
      .ok (sch1, mask1, ns1, sti1, sidx1, gb)) :
    ∀ a b2 k, gb = some (a, b2) → a ≤ k → k < b2 →
      mask1.getD k false = false := by
  revert h
  unfold priorityBefore
  repeat' split
  all_goals intro h
  all_goals
    first
      | exact Except.noConfusion h
      | (simp only [Except.ok.injEq, Prod.mk.injEq] at h
         obtain ⟨-, -, -, -, -, h6⟩ := h
         intro a b2 k hg ha hb
         rw [← h6] at hg
         exact Option.noConfusion hg)
      | exact beforeObs_ghost _ _ _ _ _ _ _ _ _ _ _ _ _ _ _ _ h
      | exact beforeTrans_ghost _ _ _ _ _ _ _ _ _ _ _ _ _ _ _ _ h

theorem afterObs_false (cfg : SchedulerConfig) (tr : Transitioner)
    (b1 nb : Block) (sch : Schedule) (mask : List Bool) (t0 : ℚ)
    (eti : ℕ) (sch2 : Schedule) (mask2 : List Bool)
    (ga : Option (ℕ × ℕ))
    (h : afterObs cfg tr b1 nb sch mask t0 eti = .ok (sch2, mask2, ga)) :
    ∀ k, mask.getD k false = false → mask2.getD k false = false := by
  revert h
  unfold afterObs
  repeat' split
  all_goals intro h
  all_goals
    first
      | exact Except.noConfusion h
      | (simp only [Except.ok.injEq, Prod.mk.injEq] at h
         obtain ⟨-, h2, -⟩ := h
         intro k hk
         rw [← h2]
         exact maskSetRange_false_mono _ _ _ _ hk)

theorem priorityAfter_false (cfg : SchedulerConfig) (tr : Transitioner)
    (b1 : Block) (sch : Schedule) (mask : List Bool) (t : ℚ)
    (eti si : ℕ) (ha : Bool) (sch2 : Schedule) (mask2 : List Bool)
    (ga : Option (ℕ × ℕ))
    (h : priorityAfter cfg tr b1 sch mask t eti si ha =
      .ok (sch2, mask2, ga)) :
    ∀ k, mask.getD k false = false → mask2.getD k false = false := by
  revert h
  unfold priorityAfter
  repeat' split
  all_goals intro h
  all_goals
    first
      | exact Except.noConfusion h
      | (simp only [Except.ok.injEq, Prod.mk.injEq] at h
         obtain ⟨-, h2, -⟩ := h
         intro k hk
         rw [← h2]
         exact hk)
      | exact afterObs_false _ _ _ _ _ _ _ _ _ _ _ h

theorem afterObs_ghost (cfg : SchedulerConfig) (tr : Transitioner)
    (b1 nb : Block) (sch : Schedule) (mask : List Bool) (t0 : ℚ)
    (eti : ℕ) (sch2 : Schedule) (mask2 : List Bool)
    (ga : Option (ℕ × ℕ))
    (h : afterObs cfg tr b1 nb sch mask t0 eti = .ok (sch2, mask2, ga)) :
    ∀ a b2 k, ga = some (a, b2) → a ≤ k → k < b2 →
      mask2.getD k false = false := by
  revert h
  unfold afterObs
  repeat' split
  all_goals intro h
  all_goals
    first
      | exact Except.noConfusion h
      | (simp only [Except.ok.injEq, Prod.mk.injEq] at h
         obtain ⟨-, h2, h3⟩ := h
         intro a b2 k hg ha hb
         rw [← h3] at hg
         injection hg with hp
         injection hp with hpa hpb
         rw [← h2]
         exact maskSetRange_closes _ _ _ _ (by rw [hpa]; exact ha)
           (by rw [hpb]; exact hb))

theorem priorityAfter_ghost (cfg : SchedulerConfig) (tr : Transitioner)
    (b1 : Block) (sch : Schedule) (mask : List Bool) (t : ℚ)
    (eti si : ℕ) (ha : Bool) (sch2 : Schedule) (mask2 : List Bool)
    (ga : Option (ℕ × ℕ))
    (h : priorityAfter cfg tr b1 sch mask t eti si ha =
      .ok (sch2, mask2, ga)) :
    ∀ a b2 k, ga = some (a, b2) → a ≤ k → k < b2 →
      mask2.getD k false = false := by
  revert h
  unfold priorityAfter
  repeat' split
  all_goals intro h
  all_goals
    first
      | exact Except.noConfusion h
      | (simp only [Except.ok.injEq, Prod.mk.injEq] at h
         obtain ⟨-, -, h3⟩ := h
         intro a b2 k hg ha2 hb
         rw [← h3] at hg
         exact Option.noConfusion hg)
      | exact afterObs_ghost _ _ _ _ _ _ _ _ _ _ _ h

theorem priorityStep_closes (cfg : SchedulerConfig) (tr : Transitioner)
    (times row : List ℚ) (b : Block) (st st2 : PriorityState)
    (gp gb ga : Option (ℕ × ℕ))
    (h : priorityStep cfg tr times row b st = .ok (st2, gp, gb, ga)) :
    (∀ a b2 k, gp = some (a, b2) → a ≤ k → k < b2 →
      st2.mask.getD k false = false) ∧
    (∀ a b2 k, gb = some (a, b2) → a ≤ k → k < b2 →
      st2.mask.getD k false = false) ∧
    (∀ a b2 k, ga = some (a, b2) → a ≤ k → k < b2 →
      st2.mask.getD k false = false) := by
  revert h
  unfold priorityStep
  split
  · intro h
    exact Except.noConfusion h
  · dsimp only
    repeat' split
    all_goals intro h
    all_goals try exact Except.noConfusion h
    all_goals simp only [Except.ok.injEq, Prod.mk.injEq] at h
    all_goals obtain ⟨h1, h2, h3, h4⟩ := h
    · refine ⟨?_, ?_, ?_⟩
      · intro a b2 k hg ha hb
        rw [← h2] at hg
        exact Option.noConfusion hg
      · intro a b2 k hg ha hb
        rw [← h3] at hg
        exact Option.noConfusion hg
      · intro a b2 k hg ha hb
        rw [← h4] at hg
        exact Option.noConfusion hg
    · refine ⟨?_, ?_, ?_⟩
      · intro a b2 k hg ha hb
        rw [← h2] at hg
        injection hg with hp
        injection hp with hpa hpb
        rw [← h1]
        dsimp only
        exact maskSetRange_closes _ _ _ _ (by rw [hpa]; exact ha)
          (by rw [hpb]; exact hb)
      · intro a b2 k hg ha hb
        rw [← h3] at hg
        have h5 := priorityBefore_ghost _ _ _ _ _ _ _ _ _ _ _ _ _ _
          (by assumption) a b2 k hg ha hb
        have h6 := priorityAfter_false _ _ _ _ _ _ _ _ _ _ _ _
          (by assumption) k h5
        rw [← h1]
        dsimp only
        exact maskSetRange_false_mono _ _ _ _ h6
      · intro a b2 k hg ha hb
        rw [← h4] at hg
        have h5 := priorityAfter_ghost _ _ _ _ _ _ _ _ _ _ _ _
          (by assumption) a b2 k hg ha hb
        rw [← h1]
        dsimp only
        exact maskSetRange_false_mono _ _ _ _ h5

theorem priorityLoop_mask (cfg : SchedulerConfig)
    (trOpt : Option Transitioner) (times : List ℚ)
    (scores : List (List ℚ)) (blocks : List Block) :
    ∀ (idxs : List ℕ) (s1 s2 : PriorityState),
      priorityLoop cfg trOpt times scores blocks idxs s1 = .ok s2 →
      ∀ k, s2.mask.getD k false = true → s1.mask.getD k false = true := by
  intro idxs
  induction idxs with
  | nil =>
    intro s1 s2 h k hk
    unfold priorityLoop at h
    injection h with h2
    rw [← h2] at hk
    exact hk
  | cons i rest ih =>
    intro s1 s2 h k hk
    unfold priorityLoop at h
    cases trOpt with
    | none => exact Except.noConfusion h
    | some tr =>
      dsimp only at h
      cases hstep : priorityStep cfg tr times (scores.getD i [])
          (blocks.getD i default) s1 with
      | error e =>
        rw [hstep] at h
        exact Except.noConfusion h
      | ok p =>
        rw [hstep] at h
        obtain ⟨st2, g1, g2, g3⟩ := p
        dsimp only at h
        have hk2 := ih st2 s2 h k hk
        exact priorityStep_mask _ _ _ _ _ _ _ _ _ _ hstep k hk2

theorem getD_sumScores (w : List (List ℚ)) (j : ℕ) (h : j < w.length) :
    (sumScores w).getD j 0 =
      if (w[j]).all (fun x => decide ((1 : ℚ)/100000 < x)) then
        (w[j]).sum
      else 0 := by
  rw [List.getD_eq_getElem _ _ (by rw [sumScores, List.length_map]; exact h)]
  simp only [sumScores, List.getElem_map]

/-- Claim C2: in every `PriorityScheduler` run the candidate blocks
are processed in ascending order of priority value (the sorted index
list visits nondecreasing priorities); before a block's window search
its score row is zeroed wherever the open-time mask is closed; only
windows whose every cell has non-negligible score (`> 1e-5`) are
eligible, and the chosen window's cells are in particular all *open*
at selection time — so the block is not placed over grid instants
already claimed by a previously placed (hence higher-priority) block;
a placing step marks the grid cells of the placed block and of the
inserted/resized transitions closed in the resulting mask; a step
never reopens a closed mask cell; and, composed over the whole
`for i in sorted_indices:` loop, a cell open at the end was open at
every earlier point, so cells once claimed are never reassigned for
the rest of the run. -/
theorem C2_priority_no_reassignment
    (cfg : SchedulerConfig) (tr : Transitioner) (times row : List ℚ)
    (b : Block) (st st2 : PriorityState) (gp gb ga : Option (ℕ × ℕ))
    (hstep : priorityStep cfg tr times row b st =
      .ok (st2, gp, gb, ga)) :
    (∀ blocks : List Block,
      ((argsortAsc (blocks.map (·.priority))).map
        (fun i => (blocks.map (·.priority)).getD i 0)).Pairwise (· ≤ ·)) ∧
    (∀ k, k < (maskedRow row st.mask).length →
      st.mask.getD k false = false →
      (maskedRow row st.mask).getD k 0 = 0) ∧
    (∀ n : ℕ,
      (((maskedRow row st.mask).all (fun x => decide (x = 0))) ||
        (goodWindows (stride_array (maskedRow row st.mask) n)).all
          (fun x => ! x)) = false →
      ∀ k,
        argmax (sumScores (stride_array (maskedRow row st.mask) n)) ≤ k →
        k < argmax (sumScores (stride_array (maskedRow row st.mask) n))
          + n →
        (1 : ℚ)/100000 < (maskedRow row st.mask).getD k 0 ∧
          st.mask.getD k false = true) ∧
    (∀ k, st2.mask.getD k false = true → st.mask.getD k false = true) ∧
    (∀ a b2 k, gp = some (a, b2) → a ≤ k → k < b2 →
      st2.mask.getD k false = false) ∧
    (∀ a b2 k, gb = some (a, b2) → a ≤ k → k < b2 →
      st2.mask.getD k false = false) ∧
    (∀ a b2 k, ga = some (a, b2) → a ≤ k → k < b2 →
      st2.mask.getD k false = false) ∧
    (∀ (trOpt : Option Transitioner) (scores : List (List ℚ))
      (blocksL : List Block) (idxs : List ℕ) (s1 s2 : PriorityState),
      priorityLoop cfg trOpt times scores blocksL idxs s1 = .ok s2 →
      ∀ k, s2.mask.getD k false = true → s1.mask.getD k false = true) := by
  refine ⟨?_, ?_, ?_, ?_, ?_, ?_, ?_, ?_⟩
  · intro blocks
    rw [List.pairwise_map]
    have hs := @List.sorted_mergeSort ℕ
      (fun i j => decide ((blocks.map (·.priority)).getD i 0 ≤
        (blocks.map (·.priority)).getD j 0))
      (fun a b c hab hbc => by
        simp only [decide_eq_true_eq] at hab hbc ⊢
        exact le_trans hab hbc)
      (fun a b => by
        simp only [Bool.or_eq_true, decide_eq_true_eq]
        exact le_total _ _)
      (List.range (blocks.map (·.priority)).length)
    rw [argsortAsc]
    exact hs.imp (fun hab => by simpa using hab)
  · intro k hklen hm
    have hkM : k < st.mask.length := by
      rw [maskedRow, List.length_zipWith] at hklen
      omega
    rw [List.getD_eq_getElem _ _ hklen]
    simp only [maskedRow, List.getElem_zipWith]
    rw [List.getD_eq_getElem _ _ hkM] at hm
    rw [hm]
    simp
  · intro n hn k hk1 hk2
    set cs := maskedRow row st.mask with hcs
    rcases Bool.or_eq_false_iff.mp hn with ⟨-, hbad⟩
    rcases List.all_eq_false.mp hbad with ⟨g, hgmem, hgval⟩
    have hg : g = true := by
      cases g
      · exact absurd rfl hgval
      · rfl
    rcases List.mem_iff_getElem.mp hgmem with ⟨j, hjlt, hjval⟩
    by_cases hn0 : n = 0
    · exact absurd hk2 (by omega)
    have hn1 : 1 ≤ n := Nat.one_le_iff_ne_zero.mpr hn0
    have hjlt2 : j < (stride_array cs n).length := by
      simpa [goodWindows] using hjlt
    rw [hg] at hjval
    simp only [goodWindows, List.getElem_map] at hjval
    have hwj : (stride_array cs n)[j] = (cs.drop j).take n := by
      simp [stride_array]
    rw [hwj] at hjval
    have hLj : j + n ≤ cs.length := by
      have hj3 : j < cs.length + 1 - n := by
        simpa [stride_array] using hjlt2
      omega
    have hwjlen : ((cs.drop j).take n).length = n := by
      rw [List.length_take, List.length_drop]
      omega
    have hwjne : (cs.drop j).take n ≠ [] := by
      intro hnil
      rw [hnil] at hwjlen
      simp only [List.length_nil] at hwjlen
      omega
    have hsumj : 0 < ((cs.drop j).take n).sum :=
      sum_pos_of_forall_gt _ hwjne
        (fun x hx => by simpa using List.all_eq_true.mp hjval x hx)
    have hsumslen : (sumScores (stride_array cs n)).length =
        (stride_array cs n).length := by
      rw [sumScores, List.length_map]
    have hsumsj : (sumScores (stride_array cs n)).getD j 0 =
        ((cs.drop j).take n).sum := by
      rw [getD_sumScores (stride_array cs n) j hjlt2, hwj, if_pos hjval]
    have hsne : (sumScores (stride_array cs n)).length ≠ 0 := by
      rw [hsumslen]
      omega
    obtain ⟨hblt, hbmax⟩ := argmax_spec (sumScores (stride_array cs n)) hsne
    have hbpos : 0 < (sumScores (stride_array cs n)).getD
        (argmax (sumScores (stride_array cs n))) 0 := by
      refine lt_of_lt_of_le ?_ (hbmax j (by rw [hsumslen]; exact hjlt2))
      rw [hsumsj]
      exact hsumj
    have hbw : argmax (sumScores (stride_array cs n)) <
        (stride_array cs n).length := by
      rw [← hsumslen]
      exact hblt
    have hwb : (stride_array cs n)[argmax
        (sumScores (stride_array cs n))] =
        (cs.drop (argmax (sumScores (stride_array cs n)))).take n := by
      simp [stride_array]
    have hbval := getD_sumScores (stride_array cs n)
      (argmax (sumScores (stride_array cs n))) hbw
    rw [hwb] at hbval
    have hbgood :
        ((cs.drop (argmax (sumScores (stride_array cs n)))).take n).all
          (fun x => decide ((1 : ℚ)/100000 < x)) = true := by
      by_contra hc
      rw [hbval, if_neg hc] at hbpos
      exact lt_irrefl _ hbpos
    have hLb : argmax (sumScores (stride_array cs n)) + n ≤ cs.length := by
      have hb3 : argmax (sumScores (stride_array cs n)) <
          cs.length + 1 - n := by
        simpa [stride_array] using hbw
      omega
    have hkL : k < cs.length := by omega
    have hwblen :
        ((cs.drop (argmax (sumScores (stride_array cs n)))).take n).length
          = n := by
      rw [List.length_take, List.length_drop]
      omega
    have hkb : k - argmax (sumScores (stride_array cs n)) <
        ((cs.drop (argmax (sumScores (stride_array cs n)))).take
          n).length := by
      rw [hwblen]
      omega
    have helem :
        ((cs.drop (argmax (sumScores (stride_array cs n)))).take
          n)[k - argmax (sumScores (stride_array cs n))] =
          cs[k] := by
      rw [List.getElem_take, List.getElem_drop]
      congr 1
      omega
    have hgt : (1 : ℚ)/100000 < cs[k] := by
      rw [← helem]
      simpa using List.all_eq_true.mp hbgood _ (List.getElem_mem hkb)
    have hmasklen : cs.length ≤ st.mask.length := by
      rw [hcs, maskedRow, List.length_zipWith]
      omega
    have hkM : k < st.mask.length := lt_of_lt_of_le hkL hmasklen
    have hmt : st.mask[k] = true := by
      by_contra hmf
      rw [Bool.not_eq_true] at hmf
      have hz : cs[k] = 0 := by
        simp only [hcs, maskedRow, List.getElem_zipWith]
        rw [hmf]
        simp
      rw [hz] at hgt
      norm_num at hgt
    refine ⟨?_, ?_⟩
    · rw [List.getD_eq_getElem _ _ hkL]
      exact hgt
    · rw [List.getD_eq_getElem _ _ hkM]
      exact hmt
  · exact priorityStep_mask cfg tr times row b st st2 gp gb ga hstep
  · exact (priorityStep_closes cfg tr times row b st st2 gp gb ga
      hstep).1
  · exact (priorityStep_closes cfg tr times row b st st2 gp gb ga
      hstep).2.1
  · exact (priorityStep_closes cfg tr times row b st st2 gp gb ga
      hstep).2.2
  · intro trOpt scores blocksL idxs s1 s2 h2 k hk
    exact priorityLoop_mask cfg trOpt times scores blocksL idxs s1 s2
      h2 k hk

/-- Scheduler configuration of the C2 witness. -/
def cfgW2 : SchedulerConfig :=
  { constraints := some [] }

/-- Transitioner of the C2 witness: no slew rate, no tables. -/
def trW2 : Transitioner :=
  { slew_rate := none, instrument_reconfig_times := none }

/-- Candidate block of the C2 witness. -/
def bW2 : Block :=
  mkObservingBlock 0 40 1 [] none

/-- Mid-run state of the C2 witness: fresh schedule, all-open mask. -/
def stW2 : PriorityState :=
  { sched := Schedule.init 0 40, mask := [true, true], unscheduled := [] }

/-- The result of one step of the C2 witness run (the all-zero row
sends the block to the unscheduled list; no ranges are claimed). -/
def resW2 :
    PriorityState × Option (ℕ × ℕ) × Option (ℕ × ℕ) × Option (ℕ × ℕ) :=
  (priorityStep cfgW2 trW2 [0, 20] [0, 0] bW2 stW2).toOption.getD
    (stW2, none, none, none)

theorem C2_priority_no_reassignment_witness :
    (∀ blocks : List Block,
      ((argsortAsc (blocks.map (·.priority))).map
        (fun i => (blocks.map (·.priority)).getD i 0)).Pairwise (· ≤ ·)) ∧
    (∀ k, k < (maskedRow [0, 0] stW2.mask).length →
      stW2.mask.getD k false = false →
      (maskedRow [0, 0] stW2.mask).getD k 0 = 0) ∧
    (∀ n : ℕ,
      (((maskedRow [0, 0] stW2.mask).all (fun x => decide (x = 0))) ||
        (goodWindows (stride_array (maskedRow [0, 0] stW2.mask) n)).all
          (fun x => ! x)) = false →
      ∀ k,
        argmax (sumScores (stride_array (maskedRow [0, 0] stW2.mask) n))
          ≤ k →
        k < argmax (sumScores
          (stride_array (maskedRow [0, 0] stW2.mask) n)) + n →
        (1 : ℚ)/100000 < (maskedRow [0, 0] stW2.mask).getD k 0 ∧
          stW2.mask.getD k false = true) ∧
    (∀ k, (resW2.1).mask.getD k false = true →
      stW2.mask.getD k false = true) ∧
    (∀ a b2 k, resW2.2.1 = some (a, b2) → a ≤ k → k < b2 →
      (resW2.1).mask.getD k false = false) ∧
    (∀ a b2 k, resW2.2.2.1 = some (a, b2) → a ≤ k → k < b2 →
      (resW2.1).mask.getD k false = false) ∧
    (∀ a b2 k, resW2.2.2.2 = some (a, b2) → a ≤ k → k < b2 →
      (resW2.1).mask.getD k false = false) ∧
    (∀ (trOpt : Option Transitioner) (scores : List (List ℚ))
      (blocksL : List Block) (idxs : List ℕ) (s1 s2 : PriorityState),
      priorityLoop cfgW2 trOpt [0, 20] scores blocksL idxs s1 = .ok s2 →
      ∀ k, s2.mask.getD k false = true → s1.mask.getD k false = true) :=
  C2_priority_no_reassignment cfgW2 trW2 [0, 20] [0, 0] bW2 stW2
    resW2.1 resW2.2.1 resW2.2.2.1 resW2.2.2.2
    (by with_unfolding_all rfl)

/-! ### Claim C1 revisited: Python negative indices in
`change_slot_block` -/

/-- `Schedule.change_slot_block(slot_index, new_block)` with the full
Python indexing surface: `slot_index` is an `int`, and each of the two
accesses `self.slots[slot_index]` and `self.slots[slot_index + 1]`
wraps a negative value around the end of the list, as Python list
indexing does.  `Schedule.change_slot_block` above is the
nonnegative-index restriction of this function (for a nonnegative
index the two agree, since then neither access wraps). -/
def Schedule.change_slot_block_py (sch : Schedule) (slot_index : Int)
    (new_block : Block) : Schedule × Option String :=
  match pyGet sch.slots slot_index with
  | none => (sch, some "IndexError: list index out of range")
  | some s =>
    let new_end := s.start + new_block.duration
    let j := (if slot_index < 0 then slot_index + sch.slots.length
      else slot_index).toNat
    let slots1 := sch.slots.set j (resizedSlot s new_block)
    match pyGet slots1 (slot_index + 1) with
    | none => ({ sch with slots := slots1 },
               some "IndexError: list index out of range")
    | some s1 =>
      if s1.block.isSome then
        ({ sch with slots := slots1 }, some "slot afterwards is full")
      else
        let j1 := (if slot_index + 1 < 0 then
          slot_index + 1 + slots1.length else slot_index + 1).toNat
        ({ sch with slots := slots1.set j1 (pushedSlot s1 new_end) },
         none)

/-- The pre-state of the C1 counterexample: `Schedule(0, 3600)` after
one successful `insert_slot(600, 600 s block)` — the invariant holds
here. -/
def schC1neg : Schedule :=
  ((Schedule.init 0 3600).insert_slot 600
    (mkObservingBlock 0 600 1 [] none)).toOption.getD (Schedule.init 0 0)

/-- Counterexample to claim C1 as stated: on the valid three-slot
schedule `[free(0,600), occupied(600,1200), free(1200,3600)]`, the
call `change_slot_block(-1, 50 s transition)` raises nothing — the
follower check `slots[slot_index + 1]` wraps to `slots[0]`, which is
free — yet it resizes the last slot to `(1200, 1250)` and pushes
`slots[0].start` forward to `1250`, so afterwards the first slot does
not start at the horizon start, the last slot does not end at the
horizon end (`1250 ≠ 3600`), and the partition invariant is broken by
a successful operation. -/
theorem C1_negative_index_counterexample :
    schC1neg.invariantHolds ∧
    (schC1neg.change_slot_block_py (-1)
      (TransitionBlock.from_duration 50)).2 = none ∧
    ((schC1neg.change_slot_block_py (-1)
      (TransitionBlock.from_duration 50)).1.slots.head?.map Slot.start) =
      some 1250 ∧
    ((schC1neg.change_slot_block_py (-1)
      (TransitionBlock.from_duration 50)).1.slots.getLast?.map
        Slot.stop) = some 1250 ∧
    ¬ (schC1neg.change_slot_block_py (-1)
      (TransitionBlock.from_duration 50)).1.invariantHolds := by
  have hins : (Schedule.init 0 3600).insert_slot 600
      (mkObservingBlock 0 600 1 [] none) = .ok schC1neg := by
    with_unfolding_all rfl
  have htf : tiling (schC1neg.change_slot_block_py (-1)
      (TransitionBlock.from_duration 50)).1.startTime
      (schC1neg.change_slot_block_py (-1)
        (TransitionBlock.from_duration 50)).1.slots
      (schC1neg.change_slot_block_py (-1)
        (TransitionBlock.from_duration 50)).1.endTime = false := by
    with_unfolding_all rfl
  refine ⟨insert_slot_invariant (init_invariant 0 3600) hins,
    by with_unfolding_all rfl, by with_unfolding_all rfl,
    by with_unfolding_all rfl, ?_⟩
  intro hinv
  rw [hinv.2.1] at htf
  exact Bool.noConfusion htf

/-! ### Claim C5 revisited: the priority strategy's merge -/

theorem priorityFinish_selfC (selfC : Option (List Constraint))
    (r : Except String PriorityState) (stP : PriorityState)
    (selfCP : Option (List Constraint))
    (h : priorityFinish selfC r = .ok (stP, selfCP)) :
    selfCP = selfC := by
  cases r with
  | error e => exact Except.noConfusion h
  | ok st =>
    simp only [priorityFinish, Except.ok.injEq, Prod.mk.injEq] at h
    exact h.2.symm

/-- The priority half of claim C5: `PriorityScheduler._make_schedule`
runs the same aliasing merge loop, so a successful priority run leaves
the configured constraint list unchanged or grown by the one default
`AltitudeConstraint`. -/
theorem priority_constraint_mutation (cfgP : SchedulerConfig)
    (blocksP : List Block) (schedP : Schedule) (stP : PriorityState)
    (selfCP : Option (List Constraint))
    (hp : priority_make_schedule cfgP blocksP schedP =
      .ok (stP, selfCP)) :
    selfCP = cfgP.constraints ∨
      ∃ l, cfgP.constraints = some l ∧ l.any Constraint.isAlt = false ∧
        selfCP = some (l ++ [defaultAltitude cfgP]) ∧
        ∃ b ∈ blocksP, b.constraints = none := by
  revert hp
  unfold priority_make_schedule
  repeat' split
  all_goals intro hp
  all_goals try exact Except.noConfusion hp
  have h2 := priorityFinish_selfC _ _ _ _ hp
  rw [h2]
  exact mergeBlocks_selfC _ _ _ _ (by assumption)

/-- Claim C5 (amended): the scheduler's constraint list after a run of
*either strategy* is either unchanged, or — when it was a list with no
altitude constraint and some block carried no per-block constraints —
the caller's list with the default `AltitudeConstraint` appended (the
merge loops of the sequential and the priority strategy are identical
and both append to the caller-supplied list through the
`b._all_constraints = self.constraints` alias).  The input blocks
themselves are worked on as shallow copies and never mutated. -/
theorem C5_scheduler_constraint_mutation (cfg : SchedulerConfig)
    (fuel : ℕ) (blocks : List Block) (sched s : Schedule)
    (selfC2 : Option (List Constraint))
    (cfgP : SchedulerConfig) (blocksP : List Block) (schedP : Schedule)
    (stP : PriorityState) (selfCP : Option (List Constraint))
    (h : seq_make_schedule cfg fuel blocks sched = .ok (s, selfC2))
    (hp : priority_make_schedule cfgP blocksP schedP =
      .ok (stP, selfCP)) :
    (selfC2 = cfg.constraints ∨
      ∃ l, cfg.constraints = some l ∧ l.any Constraint.isAlt = false ∧
        selfC2 = some (l ++ [defaultAltitude cfg]) ∧
        ∃ b ∈ blocks, b.constraints = none) ∧
    (selfCP = cfgP.constraints ∨
      ∃ l, cfgP.constraints = some l ∧ l.any Constraint.isAlt = false ∧
        selfCP = some (l ++ [defaultAltitude cfgP]) ∧
        ∃ b ∈ blocksP, b.constraints = none) :=
  ⟨seq_constraint_mutation cfg fuel blocks sched s selfC2 h,
   priority_constraint_mutation cfgP blocksP schedP stP selfCP hp⟩

/-- The scheduler configuration of the priority half of the C5
witness: one non-altitude global constraint scoring zero, and a
transitioner with no costs. -/
def cfgC5p : SchedulerConfig :=
  { constraints := some [{ isAlt := false, eval := fun _ _ => 0 }],
    transitioner := some { slew_rate := none,
                           instrument_reconfig_times := none } }

/-- Witness for the amended claim C5 at a concrete sequential run and
a concrete priority run; both runs append one default altitude
constraint to the configured list. -/
theorem C5_scheduler_constraint_mutation_witness :
    (((seq_make_schedule cfgC5 3 [blkC5] (Schedule.init 0 10)).toOption.getD
        (Schedule.init 0 0, none)).2 = cfgC5.constraints ∨
      ∃ l, cfgC5.constraints = some l ∧ l.any Constraint.isAlt = false ∧
        ((seq_make_schedule cfgC5 3 [blkC5]
          (Schedule.init 0 10)).toOption.getD
            (Schedule.init 0 0, none)).2 =
          some (l ++ [defaultAltitude cfgC5]) ∧
        ∃ b ∈ [blkC5], b.constraints = none) ∧
    (((priority_make_schedule cfgC5p [blkC5]
        (Schedule.init 0 40)).toOption.getD
          ({ sched := Schedule.init 0 0, mask := [],
             unscheduled := [] }, none)).2 = cfgC5p.constraints ∨
      ∃ l, cfgC5p.constraints = some l ∧
        l.any Constraint.isAlt = false ∧
        ((priority_make_schedule cfgC5p [blkC5]
          (Schedule.init 0 40)).toOption.getD
            ({ sched := Schedule.init 0 0, mask := [],
               unscheduled := [] }, none)).2 =
          some (l ++ [defaultAltitude cfgC5p]) ∧
        ∃ b ∈ [blkC5], b.constraints = none) :=
  C5_scheduler_constraint_mutation cfgC5 3 [blkC5] (Schedule.init 0 10)
    ((seq_make_schedule cfgC5 3 [blkC5] (Schedule.init 0 10)).toOption.getD
      (Schedule.init 0 0, none)).1
    ((seq_make_schedule cfgC5 3 [blkC5] (Schedule.init 0 10)).toOption.getD
      (Schedule.init 0 0, none)).2
    cfgC5p [blkC5] (Schedule.init 0 40)
    ((priority_make_schedule cfgC5p [blkC5]
      (Schedule.init 0 40)).toOption.getD
        ({ sched := Schedule.init 0 0, mask := [],
           unscheduled := [] }, none)).1
    ((priority_make_schedule cfgC5p [blkC5]
      (Schedule.init 0 40)).toOption.getD
        ({ sched := Schedule.init 0 0, mask := [],
           unscheduled := [] }, none)).2
    (by with_unfolding_all rfl)
    (by with_unfolding_all rfl)

end Astroplan
